import Mathlib

/-!
Verification development for the protox protobuf compiler front end.

The Rust sources verified here are:
* `src/check/mod.rs`   — the semantic checker / descriptor generator (an early
  snapshot: several conversions are `todo!()`; a panic is modelled by `Option`,
  with `none` meaning the Rust code panics on that input).
* `src/check/span.rs`  — the source-code-info builder over the checker IR.
* `src/compile/mod.rs` — the compiler driver (file map, import resolution).
* `protox-parse/src/lib.rs` — the parse entry point and its file-size bound.

The `ast` module of the repository is not part of the sources; its data types
are reconstructed below from their uses in the files above and from the
data-model section of the specification.  Mutable state (the error collector
and the source-code-info path stack) is modelled by explicit state passing:
the checker functions return the list of errors they push, in push order, and
the span visitor threads a `Context` value exactly as the Rust code threads
`&mut Context`.
-/

/-- `logos::Span`: a half-open byte range `[start, stop)` into the source. -/
structure Span where
  start : Nat
  stop : Nat
deriving Repr, DecidableEq

/-- `ast::Comments`: comments attached to an AST node. -/
structure Comments where
  leading_detached_comments : List String := []
  leading_comment : Option String := none
  trailing_comment : Option String := none
deriving Repr, DecidableEq

/-- `ast::Ident`: an identifier with its span. -/
structure Ident where
  value : String
  span : Span
deriving Repr, DecidableEq

/-- `ast::String`: a string literal with its span. -/
structure StringLit where
  value : String
  span : Span
deriving Repr, DecidableEq

/-- `ast::Int`: an integer literal.  The lexer checks the literal fits in a
`u64`, so `value < 2^64`; the sign is a separate flag. -/
structure IntLit where
  negative : Bool
  value : Nat
  span : Span
deriving Repr, DecidableEq

/-- `ast::Syntax`. -/
inductive Syntax2 where
  | proto2
  | proto3
deriving Repr, DecidableEq

/-- `ast::Syntax::to_string` as used by `to_file_descriptor`. -/
def Syntax2.toStr : Syntax2 → String
  | .proto2 => "proto2"
  | .proto3 => "proto3"

/-- `ast::FieldLabel`. -/
inductive FieldLabel where
  | optional
  | required
  | repeated
deriving Repr, DecidableEq

/-- `ast::ImportKind`. -/
inductive ImportKind where
  | public
  | weak
deriving Repr, DecidableEq

/-- `ast::Import`: `kind` is `none` for a plain import. -/
structure Import where
  kind : Option ImportKind
  value : StringLit
  span : Span
  comments : Comments
deriving Repr, DecidableEq

/-- `ast::Package`: the package name is kept as its dotted string form. -/
structure Package where
  name : String
  span : Span
  comments : Comments
deriving Repr, DecidableEq

/-- `ast::TypeName`: a possibly leading-dotted name, with its span. -/
structure TyName where
  name : String
  span : Span
deriving Repr, DecidableEq

/-- `ast::Ty`: field types. -/
inductive Ty where
  | double | float | int32 | int64 | uint32 | uint64
  | sint32 | sint64 | fixed32 | fixed64 | sfixed32 | sfixed64
  | bool | string | bytes
  | named (name : TyName)
deriving Repr, DecidableEq

/-- Modelled from the spec: an option value is a scalar literal, identifier,
message literal or list; only its span is inspected by the code verified
here. -/
structure OptionValue where
  span : Span
deriving Repr, DecidableEq

/-- `ast::OptionBody`: a single `name = value` option entry; `span` is the
span of the whole entry (`OptionBody::span()` in the source). -/
structure OptionBody where
  name : String
  value : OptionValue
  span : Span
deriving Repr, DecidableEq

/-- `ast::OptionList`: a bracketed `[a = 1, b = 2]` option list. -/
structure OptionList where
  options : List OptionBody
  span : Span
deriving Repr, DecidableEq

/-- `ast::Option` (named `OptionNode` here to avoid clashing with `Option`):
an `option name = value;` statement. -/
structure OptionNode where
  body : OptionBody
  span : Span
  comments : Comments
deriving Repr, DecidableEq

/-- `ast::ReservedRangeEnd`. -/
inductive ReservedRangeEnd where
  | none
  | int (value : IntLit)
  | max (span : Span)
deriving Repr, DecidableEq

/-- `ast::ReservedRange`: `start to end` (inclusive source syntax). -/
structure ReservedRange where
  start : IntLit
  rrEnd : ReservedRangeEnd
deriving Repr, DecidableEq

/-- The span of the range's end (the start's span when no end is given). -/
def ReservedRange.end_span (r : ReservedRange) : Span :=
  match r.rrEnd with
  | .none => r.start.span
  | .int v => v.span
  | .max sp => sp

/-- The span of the start of the range. -/
def ReservedRange.start_span (r : ReservedRange) : Span :=
  r.start.span

/-- The span of the whole range. -/
def ReservedRange.span (r : ReservedRange) : Span :=
  { start := r.start.span.start, stop := r.end_span.stop }

/-- `ast::ReservedKind`: ranges or names, mutually exclusive. -/
inductive ReservedKind where
  | ranges (ranges : List ReservedRange)
  | names (names : List Ident)
deriving Repr, DecidableEq

/-- `ast::Reserved`: one `reserved …;` statement. -/
structure Reserved where
  kind : ReservedKind
  span : Span
  comments : Comments
deriving Repr, DecidableEq

/-- `ast::Reserved::ranges`. -/
def Reserved.ranges (r : Reserved) : List ReservedRange :=
  match r.kind with
  | .ranges rs => rs
  | _ => []

/-- `ast::Reserved::names`. -/
def Reserved.names (r : Reserved) : List Ident :=
  match r.kind with
  | .names ns => ns
  | _ => []

/-- `ast::Extensions`: one `extensions …;` statement.  Its ranges share the
shape of reserved ranges (start plus `Int`/`Max` end). -/
structure Extensions where
  ranges : List ReservedRange
  options : Option OptionList
  span : Span
  comments : Comments
deriving Repr, DecidableEq

/-- `ast::EnumValue`. -/
structure EnumValue where
  name : Ident
  number : IntLit
  options : Option OptionList
  span : Span
  comments : Comments
deriving Repr, DecidableEq

/-- `ast::Enum`. -/
structure Enum where
  name : Ident
  values : List EnumValue
  options : List OptionNode
  reserved : List Reserved
  span : Span
  comments : Comments
deriving Repr, DecidableEq

/-- `ast::Method`. -/
structure Method where
  name : Ident
  input_ty : TyName
  output_ty : TyName
  client_streaming : Option Span
  server_streaming : Option Span
  options : List OptionNode
  span : Span
  comments : Comments
deriving Repr, DecidableEq

/-- `ast::Service`. -/
structure Service where
  name : Ident
  methods : List Method
  options : List OptionNode
  span : Span
  comments : Comments
deriving Repr, DecidableEq

namespace ast

/-- `ast::Field` as used by `check/mod.rs`: a normal (non-group, non-map)
message field. -/
structure Field where
  name : Ident
  number : IntLit
  label : Option FieldLabel
  ty : Ty
  options : List OptionBody
  span : Span
  comments : Comments
deriving Repr, DecidableEq

/-- `ast::Map` as used by `check/mod.rs`: a map field (`self.ty` is the type
the conversion passes to `to_type`). -/
structure MapField where
  name : Ident
  number : IntLit
  label : Option FieldLabel
  ty : Ty
  options : List OptionBody
  span : Span
  comments : Comments
deriving Repr, DecidableEq

/-- `ast::Group` as used by `check/mod.rs`.  Its lowering is `todo!()`, so
only the constructor matters; the group body is never inspected there and is
omitted. -/
structure Group where
  name : Ident
  number : IntLit
  label : Option FieldLabel
  span : Span
  comments : Comments
deriving Repr, DecidableEq

/-- `ast::MessageField`. -/
inductive MessageField where
  | field (f : Field)
  | group (g : Group)
  | map (m : MapField)
deriving Repr, DecidableEq

mutual
/-- `ast::Message`. -/
inductive Message where
  | mk (name : Ident) (body : MessageBody) (span : Span) (comments : Comments)

/-- `ast::MessageBody`. -/
inductive MessageBody where
  | mk (fields : List MessageField) (messages : List Message)
      (enums : List Enum) (oneofs : List Unit)
      (extendBlocks : List Unit) (extensions : List Extensions)
      (options : List OptionNode) (reserved : List Reserved)
end

/-- The message's name. -/
def Message.name : Message → Ident
  | .mk n _ _ _ => n

/-- The message's body. -/
def Message.body : Message → MessageBody
  | .mk _ b _ _ => b

/-- The fields of a message body. -/
def MessageBody.fields : MessageBody → List MessageField
  | .mk fs _ _ _ _ _ _ _ => fs

/-- The nested messages of a message body. -/
def MessageBody.messages : MessageBody → List Message
  | .mk _ ms _ _ _ _ _ _ => ms

/-- The nested enums of a message body. -/
def MessageBody.enums : MessageBody → List Enum
  | .mk _ _ es _ _ _ _ _ => es

/-- The oneofs of a message body (their lowering is `todo!()`, so their
content is irrelevant and they are modelled as unit). -/
def MessageBody.oneofs : MessageBody → List Unit
  | .mk _ _ _ os _ _ _ _ => os

/-- The extend blocks of a message body (lowering is `todo!()`). -/
def MessageBody.extendBlocks : MessageBody → List Unit
  | .mk _ _ _ _ exs _ _ _ => exs

/-- The extension ranges of a message body. -/
def MessageBody.extensions : MessageBody → List Extensions
  | .mk _ _ _ _ _ exs _ _ => exs

/-- The options of a message body. -/
def MessageBody.options : MessageBody → List OptionNode
  | .mk _ _ _ _ _ _ os _ => os

/-- The reserved statements of a message body. -/
def MessageBody.reserved : MessageBody → List Reserved
  | .mk _ _ _ _ _ _ _ rs => rs

/-- `ast::File` as used by `check/mod.rs`. -/
structure File where
  syntax2 : Syntax2
  package : Option Package
  imports : List Import
  messages : List Message
  enums : List Enum
  services : List Service
  extendBlocks : List Unit
  options : List OptionNode

end ast

/-! ## Descriptor types (`prost_types`)

Only the fields the verified code writes are modelled.  `i32` values are
modelled as `Int`; enum-typed descriptor fields store the protobuf enum
number, as the Rust code casts them with `as i32`. -/

/-- `prost_types::field_descriptor_proto::Label` with its protobuf values. -/
inductive Label where
  | optional
  | required
  | repeated
deriving Repr, DecidableEq

/-- The protobuf number of a label (`Label as i32`). -/
def Label.toInt : Label → Int
  | .optional => 1
  | .required => 2
  | .repeated => 3

/-- `prost_types::field_descriptor_proto::Type` (scalar cases). -/
inductive FieldType where
  | double | float | int64 | uint64 | int32 | fixed64 | fixed32 | bool
  | string | group | message | bytes | uint32 | enum | sfixed32 | sfixed64
  | sint32 | sint64
deriving Repr, DecidableEq

/-- The protobuf number of a type (`Type as i32`). -/
def FieldType.toInt : FieldType → Int
  | .double => 1 | .float => 2 | .int64 => 3 | .uint64 => 4 | .int32 => 5
  | .fixed64 => 6 | .fixed32 => 7 | .bool => 8 | .string => 9 | .group => 10
  | .message => 11 | .bytes => 12 | .uint32 => 13 | .enum => 14
  | .sfixed32 => 15 | .sfixed64 => 16 | .sint32 => 17 | .sint64 => 18

/-- `prost_types::FieldOptions` (contents never built by this snapshot). -/
structure FieldOptions where
  unused : Unit := ()
deriving Repr, DecidableEq

/-- `prost_types::FieldDescriptorProto`. -/
structure FieldDescriptorProto where
  name : Option String
  number : Option Int
  label : Option Int
  type : Option Int
  type_name : Option String
  extendee : Option String
  default_value : Option String
  oneof_index : Option Int
  json_name : Option String
  options : Option FieldOptions
  proto3_optional : Option Bool
deriving Repr, DecidableEq

/-- `prost_types::descriptor_proto::ReservedRange` (exclusive `end_`). -/
structure ReservedRangeProto where
  start : Option Int
  end_ : Option Int
deriving Repr, DecidableEq

/-- `prost_types::descriptor_proto::ExtensionRange` (never built: the
conversion is `todo!()`). -/
structure ExtensionRangeProto where
  unused : Unit := ()
deriving Repr, DecidableEq

/-- `prost_types::OneofDescriptorProto` (never built: `todo!()`). -/
structure OneofDescriptorProto where
  unused : Unit := ()
deriving Repr, DecidableEq

/-- `prost_types::EnumDescriptorProto` (never built: `todo!()`). -/
structure EnumDescriptorProto where
  unused : Unit := ()
deriving Repr, DecidableEq

/-- `prost_types::ServiceDescriptorProto` (never built: `todo!()`). -/
structure ServiceDescriptorProto where
  unused : Unit := ()
deriving Repr, DecidableEq

/-- `prost_types::MessageOptions` (never built: `todo!()`). -/
structure MessageOptions where
  unused : Unit := ()
deriving Repr, DecidableEq

/-- `prost_types::FileOptions` (never built: `todo!()`). -/
structure FileOptions where
  unused : Unit := ()
deriving Repr, DecidableEq

/-- `prost_types::DescriptorProto`; recursive through `nested_type`. -/
inductive DescriptorProto where
  | mk (name : Option String)
      (field : List FieldDescriptorProto)
      (extension : List FieldDescriptorProto)
      (nested_type : List DescriptorProto)
      (enum_type : List EnumDescriptorProto)
      (extension_range : List ExtensionRangeProto)
      (oneof_decl : List OneofDescriptorProto)
      (options : Option MessageOptions)
      (reserved_range : List ReservedRangeProto)
      (reserved_name : List String)

/-- The message descriptor's name. -/
def DescriptorProto.name : DescriptorProto → Option String
  | .mk n _ _ _ _ _ _ _ _ _ => n

/-- The message descriptor's fields. -/
def DescriptorProto.field : DescriptorProto → List FieldDescriptorProto
  | .mk _ f _ _ _ _ _ _ _ _ => f

/-- The message descriptor's extension fields. -/
def DescriptorProto.extension : DescriptorProto → List FieldDescriptorProto
  | .mk _ _ e _ _ _ _ _ _ _ => e

/-- The message descriptor's nested messages. -/
def DescriptorProto.nested_type : DescriptorProto → List DescriptorProto
  | .mk _ _ _ n _ _ _ _ _ _ => n

/-- The message descriptor's nested enums. -/
def DescriptorProto.enum_type : DescriptorProto → List EnumDescriptorProto
  | .mk _ _ _ _ e _ _ _ _ _ => e

/-- The message descriptor's extension ranges. -/
def DescriptorProto.extension_range : DescriptorProto → List ExtensionRangeProto
  | .mk _ _ _ _ _ e _ _ _ _ => e

/-- The message descriptor's oneof declarations. -/
def DescriptorProto.oneof_decl : DescriptorProto → List OneofDescriptorProto
  | .mk _ _ _ _ _ _ o _ _ _ => o

/-- The message descriptor's options. -/
def DescriptorProto.options : DescriptorProto → Option MessageOptions
  | .mk _ _ _ _ _ _ _ o _ _ => o

/-- The message descriptor's reserved ranges. -/
def DescriptorProto.reserved_range : DescriptorProto → List ReservedRangeProto
  | .mk _ _ _ _ _ _ _ _ r _ => r

/-- The message descriptor's reserved names. -/
def DescriptorProto.reserved_name : DescriptorProto → List String
  | .mk _ _ _ _ _ _ _ _ _ r => r

/-- `prost_types::SourceCodeInfo` placeholder for the checker-era file
descriptor (`get_source_code_info` there is `todo!()`, so a value of this
type is never built by `to_file_descriptor`). -/
structure SourceCodeInfoStub where
  unused : Unit := ()
deriving Repr, DecidableEq

/-- `prost_types::FileDescriptorProto`. -/
structure FileDescriptorProto where
  name : Option String
  package : Option String
  dependency : List String
  public_dependency : List Int
  weak_dependency : List Int
  message_type : List DescriptorProto
  enum_type : List EnumDescriptorProto
  service : List ServiceDescriptorProto
  extension : List FieldDescriptorProto
  options : Option FileOptions
  source_code_info : Option SourceCodeInfoStub
  syntax2 : Option String

/-! ## The checker (`src/check/mod.rs`)

The Rust checker threads `Context { syntax, errors: Vec<CheckError> }` by
mutable reference; values never read `errors`, and errors are only pushed.
The translation passes `syntax` down and returns, next to each produced
value, the list of errors that call pushed, in push order; callers append
the lists in evaluation order.  A `todo!()` (or `.unwrap()` panic) is
modelled by returning `none`. -/

/-- `MAX_MESSAGE_FIELD_NUMBER` (from the crate root). -/
def MAX_MESSAGE_FIELD_NUMBER : Int := 536870911

/-- `CheckError` (`src/check/mod.rs` lines 21–28): this snapshot has a single
variant. -/
inductive CheckError where
  | invalidMessageNumber (span : Span)
deriving Repr, DecidableEq

/-- `i32::try_from` on a `u64` value: succeeds exactly for values up to
`i32::MAX`. -/
def i32TryFrom (value : Nat) : Option Int :=
  if value ≤ 2147483647 then some (Int.ofNat value) else none

/-- `ast::Int::to_field_number` (`src/check/mod.rs` lines 261–273): accepts
non-negative literals in `1..=MAX_MESSAGE_FIELD_NUMBER`, pushing
`InvalidMessageNumber` and yielding `None` otherwise. -/
def IntLit.to_field_number (i : IntLit) : Option Int × List CheckError :=
  match i.negative, i32TryFrom i.value with
  | false, some number =>
      if 1 ≤ number ∧ number ≤ MAX_MESSAGE_FIELD_NUMBER then
        (some number, [])
      else
        (none, [.invalidMessageNumber i.span])
  | _, _ => (none, [.invalidMessageNumber i.span])

/-- `ast::FieldLabel::to_field_label`. -/
def FieldLabel.to_field_label : FieldLabel → Label
  | .optional => .optional
  | .required => .required
  | .repeated => .repeated

/-- `ast::Ty::to_type` (`src/check/mod.rs` lines 285–306): scalars map to
their descriptor type; named types are `todo!()` (modelled as `none`). -/
def Ty.to_type : Ty → Option (Option FieldType × Option String)
  | .double => some (some .double, none)
  | .float => some (some .float, none)
  | .int32 => some (some .int32, none)
  | .int64 => some (some .int64, none)
  | .uint32 => some (some .uint32, none)
  | .uint64 => some (some .uint64, none)
  | .sint32 => some (some .sint32, none)
  | .sint64 => some (some .sint64, none)
  | .fixed32 => some (some .fixed32, none)
  | .fixed64 => some (some .fixed64, none)
  | .sfixed32 => some (some .sfixed32, none)
  | .sfixed64 => some (some .sfixed64, none)
  | .bool => some (some .bool, none)
  | .string => some (some .string, none)
  | .bytes => some (some .bytes, none)
  | .named _ => none

/-- Modelled from the spec: `case::to_camel_case` (the `case` module is not
among the sources).  Underscore-delimited words; the first word stays
lowercase and later words are title-cased; underscores are dropped. -/
def to_camel_case (s : String) : String :=
  let step := fun (acc : String × Bool) (c : Char) =>
    if c = '_' then (acc.1, true)
    else if acc.2 then (acc.1.push c.toUpper, false)
    else (acc.1.push c, false)
  (s.toList.foldl step ("", false)).1

/-- `ast::OptionBody::to_field_options` is `todo!()`. -/
def OptionBody.to_field_options (_this : List OptionBody) :
    Option (Option String × FieldOptions) :=
  none

/-- `ast::Option::to_file_options` is `todo!()`. -/
def OptionNode.to_file_options (_this : List OptionNode) : Option FileOptions :=
  none

/-- `ast::Option::to_message_options` is `todo!()`. -/
def OptionNode.to_message_options (_this : List OptionNode) : Option MessageOptions :=
  none

namespace ast

/-- `ast::Field::to_field_descriptor` (`src/check/mod.rs` lines 217–258). -/
def Field.to_field_descriptor (syntax2 : Syntax2) (f : Field) :
    Option (FieldDescriptorProto × List CheckError) := do
  let name := some f.name.value
  let (number, errs) := f.number.to_field_number
  let label := some ((f.label.getD FieldLabel.optional).to_field_label.toInt)
  let (ty, type_name) ← f.ty.to_type
  let ty := ty.map FieldType.toInt
  let (_default_value, options) ←
    if f.options.isEmpty then
      some ((none : Option String), (none : Option FieldOptions))
    else do
      let (default_value, options) ← OptionBody.to_field_options f.options
      some (default_value, some options)
  let json_name := some (to_camel_case f.name.value)
  let proto3_optional :=
    if syntax2 = Syntax2.proto3 ∧ f.label = some FieldLabel.optional then
      some true
    else
      none
  some ({ name, number, label, type := ty, type_name,
          extendee := none,
          default_value := none,  -- the Rust code writes `None // TODO` here
          oneof_index := none,
          json_name, options, proto3_optional }, errs)

/-- `ast::Map::to_field_descriptor` (`src/check/mod.rs` lines 308–349): like a
normal field but with `label = None`; pushes nothing onto the generated
message list (`generate_message_descriptor` is `todo!()` and never called). -/
def MapField.to_field_descriptor (syntax2 : Syntax2) (m : MapField) :
    Option (FieldDescriptorProto × List CheckError) := do
  let name := some m.name.value
  let (number, errs) := m.number.to_field_number
  let label := (none : Option Int)
  let (ty, type_name) ← m.ty.to_type
  let ty := ty.map FieldType.toInt
  let (_default_value, options) ←
    if m.options.isEmpty then
      some ((none : Option String), (none : Option FieldOptions))
    else do
      let (default_value, options) ← OptionBody.to_field_options m.options
      some (default_value, some options)
  let json_name := some (to_camel_case m.name.value)
  let proto3_optional :=
    if syntax2 = Syntax2.proto3 ∧ m.label = some FieldLabel.optional then
      some true
    else
      none
  some ({ name, number, label, type := ty, type_name,
          extendee := none,
          default_value := none,
          oneof_index := none,
          json_name, options, proto3_optional }, errs)

/-- `ast::Group::to_field_descriptor` is `todo!()`. -/
def Group.to_field_descriptor (_syntax2 : Syntax2) (_g : Group) :
    Option (FieldDescriptorProto × List DescriptorProto × List CheckError) :=
  none

/-- `ast::MessageField::to_field_descriptor` (`src/check/mod.rs` lines
203–215): next to the descriptor, the list of synthetic messages the call
pushed onto `generated_nested_messages`. -/
def MessageField.to_field_descriptor (syntax2 : Syntax2) :
    MessageField → Option (FieldDescriptorProto × List DescriptorProto × List CheckError)
  | .field f => do
      let (fd, errs) ← f.to_field_descriptor syntax2
      some (fd, [], errs)
  | .group g => g.to_field_descriptor syntax2
  | .map m => do
      let (fd, errs) ← m.to_field_descriptor syntax2
      some (fd, [], errs)

/-- The fields loop of `to_message_descriptor`: lowers the fields in order,
collecting the generated synthetic messages and errors in order. -/
def fieldsToDescriptors (syntax2 : Syntax2) :
    List MessageField → Option (List FieldDescriptorProto × List DescriptorProto × List CheckError)
  | [] => some ([], [], [])
  | f :: rest => do
      let (fd, gen, errs) ← f.to_field_descriptor syntax2
      let (fds, gens, errss) ← fieldsToDescriptors syntax2 rest
      some (fd :: fds, gen ++ gens, errs ++ errss)

/-- `ast::Extend::to_field_descriptor` is `todo!()`. -/
def extendToFieldDescriptor (_e : Unit) : Option FieldDescriptorProto :=
  none

/-- `ast::Extensions::to_extension_range` is `todo!()`. -/
def Extensions.to_extension_range (_e : Extensions) : Option ExtensionRangeProto :=
  none

/-- `ast::Oneof::to_oneof_descriptor` is `todo!()`. -/
def oneofToOneofDescriptor (_o : Unit) : Option OneofDescriptorProto :=
  none

/-- `ast::Enum::to_enum_descriptor` is `todo!()`. -/
def Enum.to_enum_descriptor (_e : Enum) : Option EnumDescriptorProto :=
  none

/-- `ast::Service::to_service_descriptor` is `todo!()`. -/
def Service.to_service_descriptor (_s : Service) : Option ServiceDescriptorProto :=
  none

end ast

/-- `ast::ReservedRange::to_message_reserved_range` (`src/check/mod.rs` lines
404–419).  The `u64` addition `self.start.value + 1` is reduced modulo
`2^64`; the `i32::try_from(..).unwrap()` panics (`none`) when out of range. -/
def ReservedRange.to_message_reserved_range (r : ReservedRange) :
    Option ReservedRangeProto := do
  let rEnd ←
    match r.rrEnd with
    | .none => i32TryFrom ((r.start.value + 1) % 2 ^ 64)
    | .int value => i32TryFrom value.value
    | .max _ => some (MAX_MESSAGE_FIELD_NUMBER + 1)
  let rStart ← i32TryFrom r.start.value
  some { start := some rStart, end_ := some rEnd }

/-- `ast::ReservedRange::to_enum_reserved_range` (`src/check/mod.rs` lines
421–435). -/
def ReservedRange.to_enum_reserved_range (r : ReservedRange) :
    Option ReservedRangeProto := do
  let rEnd ←
    match r.rrEnd with
    | .none => i32TryFrom r.start.value
    | .int value => i32TryFrom value.value
    | .max _ => some 2147483647
  let rStart ← i32TryFrom r.start.value
  some { start := some rStart, end_ := some rEnd }

namespace ast

mutual
/-- `ast::Message::to_message_descriptor` (`src/check/mod.rs` lines 122–200):
`nested_type` is the user-declared nested messages in order, then the
synthetic messages generated while lowering the fields. -/
def Message.to_message_descriptor (syntax2 : Syntax2) :
    Message → Option (DescriptorProto × List CheckError)
  | .mk mname (.mk bFields bMessages bEnums bOneofs _bExtends bExtensions
      bOptions bReserved) _ _ => do
      let name := some mname.value
      let (field, generated_nested_messages, fieldErrs) ←
        fieldsToDescriptors syntax2 bFields
      let extension ← _bExtends.mapM extendToFieldDescriptor
      let (userNested, nestedErrs) ←
        messagesToDescriptors syntax2 bMessages
      let nested_type := userNested ++ generated_nested_messages
      let enum_type ← bEnums.mapM Enum.to_enum_descriptor
      let extension_range ← bExtensions.mapM Extensions.to_extension_range
      let oneof_decl ← bOneofs.mapM oneofToOneofDescriptor
      let options ←
        if bOptions.isEmpty then
          some (none : Option MessageOptions)
        else do
          let o ← OptionNode.to_message_options bOptions
          some (some o)
      let reserved_range ←
        (bReserved.flatMap Reserved.ranges).mapM
          ReservedRange.to_message_reserved_range
      let reserved_name :=
        bReserved.flatMap (fun r => r.names.map Ident.value)
      some (.mk name field extension nested_type enum_type extension_range
              oneof_decl options reserved_range reserved_name,
            fieldErrs ++ nestedErrs)
termination_by m => sizeOf m

/-- The loop lowering a list of sibling messages, collecting errors in
order. -/
def messagesToDescriptors (syntax2 : Syntax2) :
    List Message → Option (List DescriptorProto × List CheckError)
  | [] => some ([], [])
  | m :: rest => do
      let (d, errs) ← m.to_message_descriptor syntax2
      let (ds, errss) ← messagesToDescriptors syntax2 rest
      some (d :: ds, errs ++ errss)
termination_by ms => sizeOf ms
end

/-- `index_to_i32` (crate root): indices of definitions in a file fit `i32`
because files are at most `i32::MAX` bytes. -/
def index_to_i32 (index : Nat) : Int :=
  Int.ofNat index

/-- `ast::File::to_file_descriptor` (`src/check/mod.rs` lines 35–115).  The
`source_code` argument selects source-info generation, which is `todo!()`
in this snapshot, so passing `some _` panics (`none`). -/
def File.to_file_descriptor (f : File) (name : Option String)
    (source_code : Option String) :
    Option (Except (List CheckError) FileDescriptorProto) := do
  let name := name
  let package := f.package.map Package.name
  let dependency := f.imports.map (fun i => i.value.value)
  let public_dependency :=
    ((f.imports.enum.filter (fun p => p.2.kind = some ImportKind.public)).map
      (fun p => index_to_i32 p.1))
  let weak_dependency :=
    ((f.imports.enum.filter (fun p => p.2.kind = some ImportKind.weak)).map
      (fun p => index_to_i32 p.1))
  let (message_type, errors) ← messagesToDescriptors f.syntax2 f.messages
  let enum_type ← f.enums.mapM Enum.to_enum_descriptor
  let service ← f.services.mapM Service.to_service_descriptor
  let extension ← f.extendBlocks.mapM extendToFieldDescriptor
  let options ←
    if f.options.isEmpty then
      some (none : Option FileOptions)
    else do
      let o ← OptionNode.to_file_options f.options
      some (some o)
  let source_code_info ←
    match source_code with
    | some _ => (none : Option (Option SourceCodeInfoStub))
    | none => some none
  let syntax2 := some f.syntax2.toStr
  if errors.isEmpty then
    some (.ok { name, package, dependency, public_dependency, weak_dependency,
                message_type, enum_type, service, extension, options,
                source_code_info, syntax2 })
  else
    some (.error errors)

end ast

/-! ## Sample values used by witnesses -/

/-- A trivial span. -/
def span0 : Span := { start := 0, stop := 0 }

/-- Empty comments. -/
def comments0 : Comments := {}

/-- A sample proto3 field `optional int32 foo = 1;`. -/
def sampleField : ast.Field :=
  { name := { value := "foo", span := span0 }
    number := { negative := false, value := 1, span := span0 }
    label := some FieldLabel.optional
    ty := Ty.int32
    options := []
    span := span0
    comments := comments0 }

/-! ## C1: field-number validation -/

/-- C1 (code divergence): the checker in this snapshot accepts the reserved
field numbers 19000 and 19999 — `to_field_number` returns `Some` with no
error — although the claim (and the repository's own
`check::tests::invalid_message_number`) requires a `ReservedMessageNumber`
rejection; the snapshot's `CheckError` has no such variant at all. -/
theorem to_field_number_accepts_reserved_range :
    IntLit.to_field_number { negative := false, value := 19000, span := span0 } =
      (some 19000, []) ∧
    IntLit.to_field_number { negative := false, value := 19999, span := span0 } =
      (some 19999, []) := by
  constructor <;> rfl

/-! ## C2: reserved-range lowering -/

/-- C2 (code divergence): for a message reserved range with an explicit
inclusive source end, `to_message_reserved_range` emits the end value
unchanged — `reserved 4 to 5` yields `end = 5` — although the claim (and
the exclusive-end convention used by the other two arms of the very same
function) requires `end = 6`. -/
theorem message_reserved_range_keeps_inclusive_end :
    ReservedRange.to_message_reserved_range
      { start := { negative := false, value := 4, span := span0 },
        rrEnd := ReservedRangeEnd.int { negative := false, value := 5, span := span0 } } =
      some { start := some 4, end_ := some 5 } := by
  rfl

/-! ## C3: `proto3_optional` -/

/-- C3: a normal field lowers with `proto3_optional = Some(true)` exactly
when the syntax is proto3 and the field is labelled `optional`, and with the
field unset otherwise. -/
theorem field_proto3_optional_iff (syntax2 : Syntax2) (f : ast.Field)
    (fd : FieldDescriptorProto) (errs : List CheckError)
    (h : f.to_field_descriptor syntax2 = some (fd, errs)) :
    fd.proto3_optional =
      if syntax2 = Syntax2.proto3 ∧ f.label = some FieldLabel.optional then
        some true
      else
        none := by
  unfold ast.Field.to_field_descriptor at h
  cases hty : f.ty.to_type with
  | none => simp [hty] at h
  | some p =>
    obtain ⟨ty, tyName⟩ := p
    by_cases hopt : f.options.isEmpty
    · simp [hty, hopt, Option.bind] at h
      obtain ⟨hfd, -⟩ := h
      subst hfd
      rfl
    · simp [hty, hopt, Option.bind, OptionBody.to_field_options] at h

/-- Witness for C3 at `syntax = proto3`, field `optional int32 foo = 1;`. -/
theorem field_proto3_optional_iff_witness :
    ({ name := some "foo", number := some 1, label := some 1, type := some 5,
       type_name := none, extendee := none, default_value := none,
       oneof_index := none, json_name := some "foo", options := none,
       proto3_optional := some true } : FieldDescriptorProto).proto3_optional =
      if Syntax2.proto3 = Syntax2.proto3 ∧
          sampleField.label = some FieldLabel.optional then
        some true
      else
        none :=
  field_proto3_optional_iff Syntax2.proto3 sampleField _ [] (by rfl)

/-! ## C4: nested-type ordering -/

/-- Lowering a list of sibling messages yields one descriptor per message,
in order. -/
theorem messagesToDescriptors_get (syntax2 : Syntax2) :
    ∀ (ms : List ast.Message) (ds : List DescriptorProto) (es : List CheckError),
    ast.messagesToDescriptors syntax2 ms = some (ds, es) →
    ds.length = ms.length ∧
    ∀ (N : Nat) (hN : N < ms.length), ∃ dN eN,
      ast.Message.to_message_descriptor syntax2 (ms.get ⟨N, hN⟩) = some (dN, eN) ∧
      ds[N]? = some dN := by
  intro ms
  induction ms with
  | nil =>
    intro ds es h
    simp only [ast.messagesToDescriptors, Option.some.injEq, Prod.mk.injEq] at h
    obtain ⟨rfl, rfl⟩ := h
    exact ⟨rfl, fun N hN => absurd hN (by simp)⟩
  | cons m rest ih =>
    intro ds es h
    simp only [ast.messagesToDescriptors, Option.bind_eq_some, bind] at h
    obtain ⟨⟨d, errs⟩, hd, h⟩ := h
    obtain ⟨⟨ds', errss⟩, hds, h⟩ := h
    simp only [Option.some.injEq, Prod.mk.injEq] at h
    obtain ⟨rfl, rfl⟩ := h
    obtain ⟨hlen, hget⟩ := ih _ _ hds
    refine ⟨by simpa using hlen, ?_⟩
    intro N hN
    cases N with
    | zero => exact ⟨d, errs, hd, by simp⟩
    | succ N =>
      obtain ⟨dN, eN, h1, h2⟩ := hget N (by simpa using hN)
      exact ⟨dN, eN, h1, by simpa using h2⟩

/-- C4: in a lowered message, `nested_type` is the user-declared nested
messages first, in declaration order — the `N`-th user-declared nested
message appears at `nested_type[N]` — followed by the synthetic messages
generated while lowering the fields. -/
theorem message_nested_types_user_first (syntax2 : Syntax2) (m : ast.Message)
    (d : DescriptorProto) (errs : List CheckError)
    (h : m.to_message_descriptor syntax2 = some (d, errs)) :
    ∃ user uerrs fds gen ferrs,
      ast.messagesToDescriptors syntax2 m.body.messages = some (user, uerrs) ∧
      ast.fieldsToDescriptors syntax2 m.body.fields = some (fds, gen, ferrs) ∧
      d.nested_type = user ++ gen ∧
      user.length = m.body.messages.length ∧
      ∀ (N : Nat) (hN : N < m.body.messages.length), ∃ dN eN,
        ast.Message.to_message_descriptor syntax2
          (m.body.messages.get ⟨N, hN⟩) = some (dN, eN) ∧
        d.nested_type[N]? = some dN := by
  obtain ⟨mname, body, msp, mcm⟩ := m
  obtain ⟨bFields, bMessages, bEnums, bOneofs, bExtends, bExtensions,
    bOptions, bReserved⟩ := body
  by_cases hbo : bOptions.isEmpty = true
  case neg =>
    simp [ast.Message.to_message_descriptor, bind, hbo,
      OptionNode.to_message_options] at h
  simp only [ast.Message.to_message_descriptor, Option.bind_eq_some, bind,
    hbo, if_true] at h
  obtain ⟨⟨fds, gen, ferrs⟩, hf, h⟩ := h
  obtain ⟨ext, hext, h⟩ := h
  obtain ⟨⟨user, uerrs⟩, hu, h⟩ := h
  obtain ⟨enums, henums, h⟩ := h
  obtain ⟨extr, hextr, h⟩ := h
  obtain ⟨oneofs, honeofs, h⟩ := h
  obtain ⟨opts, hopts, h⟩ := h
  obtain ⟨rr, hrr, h⟩ := h
  simp only [Option.some.injEq, Prod.mk.injEq] at h
  obtain ⟨rfl, rfl⟩ := h
  obtain ⟨hlen, hget⟩ := messagesToDescriptors_get syntax2 _ _ _ hu
  refine ⟨user, uerrs, fds, gen, ferrs, hu, hf, rfl, hlen, ?_⟩
  intro N hN
  obtain ⟨dN, eN, h1, h2⟩ := hget N hN
  refine ⟨dN, eN, h1, ?_⟩
  have hN2 : N < bMessages.length := hN
  show (user ++ gen)[N]? = some dN
  rw [List.getElem?_append, if_pos (by omega)]
  exact h2

/-- A message with no fields or nested declarations. -/
def sampleNested : ast.Message :=
  .mk { value := "Nest", span := span0 }
    (.mk [] [] [] [] [] [] [] []) span0 comments0

/-- A message `Foo` with one field and one nested message. -/
def sampleMessage : ast.Message :=
  .mk { value := "Foo", span := span0 }
    (.mk [.field sampleField] [sampleNested] [] [] [] [] [] []) span0 comments0

/-- The descriptor of `sampleNested`. -/
def sampleNestedDescriptor : DescriptorProto :=
  .mk (some "Nest") [] [] [] [] [] [] none [] []

/-- The descriptor of `sampleField` lowered under proto2. -/
def sampleFieldDescriptor : FieldDescriptorProto :=
  { name := some "foo", number := some 1, label := some 1, type := some 5,
    type_name := none, extendee := none, default_value := none,
    oneof_index := none, json_name := some "foo", options := none,
    proto3_optional := none }

/-- Witness for C4 on `sampleMessage` under proto2. -/
theorem message_nested_types_user_first_witness :
    ∃ user uerrs fds gen ferrs,
      ast.messagesToDescriptors Syntax2.proto2 sampleMessage.body.messages =
        some (user, uerrs) ∧
      ast.fieldsToDescriptors Syntax2.proto2 sampleMessage.body.fields =
        some (fds, gen, ferrs) ∧
      (DescriptorProto.mk (some "Foo") [sampleFieldDescriptor] []
        [sampleNestedDescriptor] [] [] [] none [] []).nested_type = user ++ gen ∧
      user.length = sampleMessage.body.messages.length ∧
      ∀ (N : Nat) (hN : N < sampleMessage.body.messages.length), ∃ dN eN,
        ast.Message.to_message_descriptor Syntax2.proto2
          (sampleMessage.body.messages.get ⟨N, hN⟩) = some (dN, eN) ∧
        (DescriptorProto.mk (some "Foo") [sampleFieldDescriptor] []
          [sampleNestedDescriptor] [] [] [] none [] []).nested_type[N]? = some dN :=
  message_nested_types_user_first Syntax2.proto2 sampleMessage _ [] (by
    simp [ast.Message.to_message_descriptor, ast.messagesToDescriptors,
      ast.fieldsToDescriptors, ast.MessageField.to_field_descriptor,
      ast.Field.to_field_descriptor, IntLit.to_field_number, i32TryFrom,
      Ty.to_type, to_camel_case, sampleMessage, sampleNested, sampleField,
      sampleNestedDescriptor, sampleFieldDescriptor, span0, comments0, bind,
      MAX_MESSAGE_FIELD_NUMBER, FieldLabel.to_field_label, Label.toInt,
      FieldType.toInt, ast.Message.body, ast.MessageBody.messages,
      ast.MessageBody.fields, List.mapM, List.mapM.loop]
    rfl)

/-! ## C5: dependency lists -/

/-- The first components of an enumeration are strictly increasing. -/
theorem pairwise_fst_enumFrom {α : Type} (l : List α) :
    ∀ n, List.Pairwise (fun a b : Nat × α => a.1 < b.1) (List.enumFrom n l) := by
  induction l with
  | nil => intro n; simp
  | cons a t ih =>
    intro n
    rw [List.enumFrom]
    refine List.Pairwise.cons ?_ (ih (n + 1))
    rintro ⟨i, x⟩ hb
    have := (List.mk_mem_enumFrom_iff_le_and_getElem?_sub.mp hb).1
    omega

/-- The index list built by `to_file_descriptor` for an import kind is
strictly increasing. -/
theorem depIndices_pairwise (l : List Import) (k : ImportKind) :
    List.Pairwise (· < ·)
      ((l.enum.filter (fun p => p.2.kind = some k)).map
        (fun p => ast.index_to_i32 p.1)) := by
  rw [List.pairwise_map]
  refine List.Pairwise.filter _ ?_
  refine List.Pairwise.imp ?_ (pairwise_fst_enumFrom l 0)
  intro a b hab
  simpa [ast.index_to_i32] using hab

/-- Membership in the index list built by `to_file_descriptor`:
exactly the indices whose import has the given kind. -/
theorem depIndices_mem (l : List Import) (k : ImportKind) (i : Nat) :
    Int.ofNat i ∈
      ((l.enum.filter (fun p => p.2.kind = some k)).map
        (fun p => ast.index_to_i32 p.1)) ↔
    ∃ hi : i < l.length, (l.get ⟨i, hi⟩).kind = some k := by
  simp only [List.mem_map, List.mem_filter, ast.index_to_i32,
    decide_eq_true_eq]
  constructor
  · rintro ⟨⟨j, im⟩, ⟨hmem, hkind⟩, hj⟩
    have hj2 : j = i := Int.ofNat.inj hj
    subst hj2
    have hget : l[j]? = some im := List.mk_mem_enum_iff_getElem?.mp hmem
    rw [List.getElem?_eq_some] at hget
    obtain ⟨hlt, hget⟩ := hget
    refine ⟨hlt, ?_⟩
    rw [List.get_eq_getElem, hget]
    exact hkind
  · rintro ⟨hi, hkind⟩
    refine ⟨(i, l.get ⟨i, hi⟩), ⟨?_, hkind⟩, rfl⟩
    exact List.mk_mem_enum_iff_getElem?.mpr (by simp [List.get_eq_getElem])

/-- Every entry of the index list is a natural number cast to `i32`. -/
theorem depIndices_nonneg (l : List Import) (k : ImportKind) :
    ∀ x ∈ ((l.enum.filter (fun p => p.2.kind = some k)).map
        (fun p => ast.index_to_i32 p.1)), ∃ i : Nat, x = Int.ofNat i := by
  intro x hx
  obtain ⟨⟨j, im⟩, -, hj⟩ := List.mem_map.mp hx
  exact ⟨j, hj.symm⟩

/-- C5: a lowered file's `dependency` list is the import paths in source
order, and `public_dependency` / `weak_dependency` are the strictly
increasing lists of the indices whose import is declared public / weak. -/
theorem file_dependency_lists (f : ast.File) (name : Option String)
    (fd : FileDescriptorProto)
    (h : f.to_file_descriptor name none = some (Except.ok fd)) :
    fd.dependency = f.imports.map (fun i => i.value.value) ∧
    List.Pairwise (· < ·) fd.public_dependency ∧
    List.Pairwise (· < ·) fd.weak_dependency ∧
    (∀ x ∈ fd.public_dependency, ∃ i : Nat, x = Int.ofNat i) ∧
    (∀ x ∈ fd.weak_dependency, ∃ i : Nat, x = Int.ofNat i) ∧
    (∀ i : Nat, Int.ofNat i ∈ fd.public_dependency ↔
      ∃ hi : i < f.imports.length,
        (f.imports.get ⟨i, hi⟩).kind = some ImportKind.public) ∧
    (∀ i : Nat, Int.ofNat i ∈ fd.weak_dependency ↔
      ∃ hi : i < f.imports.length,
        (f.imports.get ⟨i, hi⟩).kind = some ImportKind.weak) := by
  by_cases hfo : f.options.isEmpty = true
  case neg =>
    simp [ast.File.to_file_descriptor, bind, hfo,
      OptionNode.to_file_options] at h
  simp only [ast.File.to_file_descriptor, Option.bind_eq_some, bind, hfo,
    if_true] at h
  obtain ⟨⟨msgs, errors⟩, hm, h⟩ := h
  obtain ⟨enums, henums, h⟩ := h
  obtain ⟨svcs, hsvcs, h⟩ := h
  obtain ⟨ext, hext, h⟩ := h
  obtain ⟨opts, hopts, h⟩ := h
  obtain ⟨sci, hsci, h⟩ := h
  by_cases herr : errors.isEmpty = true
  case neg => simp [herr] at h
  simp only [herr, if_true, Option.some.injEq, Except.ok.injEq] at h
  subst h
  refine ⟨rfl, depIndices_pairwise _ _, depIndices_pairwise _ _,
    depIndices_nonneg _ _, depIndices_nonneg _ _,
    fun i => depIndices_mem _ _ i, fun i => depIndices_mem _ _ i⟩

/-- Sample imports: a plain, a public and a weak import. -/
def sampleImports : List Import :=
  [ { kind := none, value := { value := "a.proto", span := span0 },
      span := span0, comments := comments0 },
    { kind := some ImportKind.public, value := { value := "b.proto", span := span0 },
      span := span0, comments := comments0 },
    { kind := some ImportKind.weak, value := { value := "c.proto", span := span0 },
      span := span0, comments := comments0 } ]

/-- A sample file with the three imports and nothing else. -/
def sampleFile : ast.File :=
  { syntax2 := Syntax2.proto2, package := none, imports := sampleImports,
    messages := [], enums := [], services := [], extendBlocks := [],
    options := [] }

/-- Witness for C5 on `sampleFile`. -/
theorem file_dependency_lists_witness :
    ({ name := none, package := none,
       dependency := ["a.proto", "b.proto", "c.proto"],
       public_dependency := [1], weak_dependency := [2],
       message_type := [], enum_type := [], service := [], extension := [],
       options := none, source_code_info := none,
       syntax2 := some "proto2" } : FileDescriptorProto).dependency =
        sampleFile.imports.map (fun i => i.value.value) ∧
    List.Pairwise (· < ·) ([1] : List Int) ∧
    List.Pairwise (· < ·) ([2] : List Int) ∧
    (∀ x ∈ ([1] : List Int), ∃ i : Nat, x = Int.ofNat i) ∧
    (∀ x ∈ ([2] : List Int), ∃ i : Nat, x = Int.ofNat i) ∧
    (∀ i : Nat, Int.ofNat i ∈ ([1] : List Int) ↔
      ∃ hi : i < sampleFile.imports.length,
        (sampleFile.imports.get ⟨i, hi⟩).kind = some ImportKind.public) ∧
    (∀ i : Nat, Int.ofNat i ∈ ([2] : List Int) ↔
      ∃ hi : i < sampleFile.imports.length,
        (sampleFile.imports.get ⟨i, hi⟩).kind = some ImportKind.weak) :=
  file_dependency_lists sampleFile none _ (by
    simp [ast.File.to_file_descriptor, ast.messagesToDescriptors, bind,
      sampleFile, sampleImports, span0, comments0, ast.index_to_i32,
      Syntax2.toStr, List.enum, List.enumFrom, List.filter,
      List.mapM, List.mapM.loop])

/-! ## The compiler driver (`src/compile/mod.rs`)

The file resolver, the shadowing check, `parse::parse`, and
`check_with_names` are external to the verified sources (pluggable trait or
missing modules); they are supplied as an environment of functions.  The
recursion of `add_import` is not structurally bounded in Rust; it is modelled
with an explicit fuel counter, `fuelExhausted` standing for a non-terminating
run being cut off (the cycle and file-map checks happen before fuel is
consumed, exactly as they precede the recursive calls in the Rust code). -/

/-- `MAX_FILE_LEN = i32::MAX as usize` (defined in both crates). -/
def MAX_FILE_LEN : Nat := 2147483647

namespace compile

/-- `error::ErrorKind` (the variants the driver itself constructs, plus
opaque carriers for parse, check and resolver errors). -/
inductive ErrorKind where
  | fileNotIncluded (path : String)
  | fileShadowed (path : String)
  | fileTooLarge (span : Option Span)
  | circularImport (cycle : String)
  | parseErrors
  | checkErrors
  | fileNotFound
  | ioError (description : String)
  | fuelExhausted
deriving Repr, DecidableEq

/-- Modelled from the spec: `check::NameMap` (the `names` module is not among
the sources); a map from fully qualified names to definition kinds. -/
structure NameMap where
  entries : List (String × String) := []
deriving Repr, DecidableEq

/-- `file::File`: resolved source bytes plus the optional filesystem path. -/
structure SrcFile where
  content : String
  path : Option String
deriving Repr, DecidableEq

/-- `compile::ParsedFile`. -/
structure ParsedFile where
  descriptor : FileDescriptorProto
  name_map : NameMap
  path : Option String
  is_root : Bool

/-- `ParsedFile::name`: `prost` returns the empty string for an unset name. -/
def ParsedFile.name (f : ParsedFile) : String :=
  f.descriptor.name.getD ""

/-- `compile::ParsedFileMap`: the `HashMap<String, usize>` is modelled as an
association list where insertion prepends and lookup takes the first hit. -/
structure ParsedFileMap where
  files : List ParsedFile
  file_names : List (String × Nat)

/-- `HashMap::get` on `file_names`. -/
def ParsedFileMap.lookupIndex (m : ParsedFileMap) (name : String) : Option Nat :=
  (m.file_names.find? (fun p => p.1 = name)).map (fun p => p.2)

/-- `HashMap::contains_key` on `file_names`. -/
def ParsedFileMap.containsKey (m : ParsedFileMap) (name : String) : Bool :=
  (m.file_names.find? (fun p => p.1 = name)).isSome

/-- `ParsedFileMap::add`: record the index, then push the file. -/
def ParsedFileMap.add (m : ParsedFileMap) (f : ParsedFile) : ParsedFileMap :=
  { files := m.files ++ [f],
    file_names := (f.name, m.files.length) :: m.file_names }

/-- The driver's external collaborators (file resolver, shadow check, parser,
checker, error decoration), all outside the verified sources. -/
structure Env where
  resolvePath : String → Option String
  pathToFileName : String → Option String
  openFile : String → Except ErrorKind SrcFile
  checkShadow : Option String → String → Except ErrorKind Unit
  parse : String → Except Unit ast.File
  checkFile : String → ast.File → String → ParsedFileMap →
    Except ErrorKind (FileDescriptorProto × NameMap)
  addImportContext : ErrorKind → Option Span → ErrorKind
  isFileNotFound : ErrorKind → Bool

/-- `compile::Compiler` (minus the boxed resolver, which lives in `Env`). -/
structure Compiler where
  file_map : ParsedFileMap
  include_imports : Bool
  include_source_info : Bool

mutual
/-- `Compiler::add_import` (`src/compile/mod.rs` lines 259–322).  The cycle
check and the already-parsed check precede everything else; only then is the
file opened, size-checked, parsed, its imports added recursively with the
name pushed on the stack, checked, and added as a non-root file. -/
def addImport (env : Env) (fuel : Nat) (c : Compiler) (file_name : String)
    (span : Option Span) (import_stack : List String) :
    Except ErrorKind Compiler :=
  if import_stack.any (fun n => n = file_name) then
    .error (.circularImport
      ((import_stack.foldl (fun cycle imp => cycle ++ imp ++ " -> ") "") ++
        file_name))
  else if c.file_map.containsKey file_name then
    .ok c
  else
    match fuel with
    | 0 => .error .fuelExhausted
    | fuel + 1 =>
      match env.openFile file_name with
      | .error err => .error (env.addImportContext err span)
      | .ok file =>
        if file.content.utf8ByteSize > MAX_FILE_LEN then
          .error (.fileTooLarge span)
        else
          match env.parse file.content with
          | .error _ => .error .parseErrors
          | .ok fileAst =>
            match addImports env fuel c fileAst.imports
                (import_stack ++ [file_name]) with
            | .error e => .error e
            | .ok c =>
              match env.checkFile file_name fileAst file.content c.file_map with
              | .error e => .error e
              | .ok (descriptor, name_map) =>
                let pfile : ParsedFile := ⟨descriptor, name_map, file.path, false⟩
                .ok { c with file_map := c.file_map.add pfile }
termination_by (fuel, 0)

/-- The `for import in &ast.imports` loop of `add_import` and `add_file`:
failures propagate immediately (`?`), successes thread the compiler state. -/
def addImports (env : Env) (fuel : Nat) (c : Compiler) (imports : List Import)
    (import_stack : List String) : Except ErrorKind Compiler :=
  match imports with
  | [] => .ok c
  | imp :: rest =>
    match addImport env fuel c imp.value.value (some imp.span) import_stack with
    | .error e => .error e
    | .ok c => addImports env fuel c rest import_stack
termination_by (fuel, imports.length + 1)
end

/-- `Compiler::add_file` (`src/compile/mod.rs` lines 105–174).  The outer
`Option` models the panic of `self.files[i]` on a broken map invariant;
every regular outcome is `some`. -/
def addFile (env : Env) (fuel : Nat) (c : Compiler) (relative_path : String) :
    Option (Except ErrorKind Compiler) :=
  match (env.resolvePath relative_path).orElse
      (fun _ => env.pathToFileName relative_path) with
  | none => some (.error (.fileNotIncluded relative_path))
  | some name =>
    match c.file_map.lookupIndex name with
    | some i =>
      match c.file_map.files[i]? with
      | none => none
      | some parsed_file =>
        match env.checkShadow parsed_file.path relative_path with
        | .error e => some (.error e)
        | .ok _ =>
          some (.ok { c with file_map :=
            { c.file_map with files :=
                c.file_map.files.set i { parsed_file with is_root := true } } })
    | none =>
      match env.openFile name with
      | .error err =>
        some (.error
          (if env.isFileNotFound err then .fileNotIncluded relative_path else err))
      | .ok file =>
        match env.checkShadow file.path relative_path with
        | .error e => some (.error e)
        | .ok _ =>
          if file.content.utf8ByteSize > MAX_FILE_LEN then
            some (.error (.fileTooLarge none))
          else
            match env.parse file.content with
            | .error _ => some (.error .parseErrors)
            | .ok fileAst =>
              match addImports env fuel c fileAst.imports [name] with
              | .error e => some (.error e)
              | .ok c =>
                match env.checkFile name fileAst file.content c.file_map with
                | .error e => some (.error e)
                | .ok (descriptor, name_map) =>
                  let pfile : ParsedFile := ⟨descriptor, name_map, file.path, true⟩
                  some (.ok { c with file_map := c.file_map.add pfile })

end compile

/-! ## `protox-parse` (`protox-parse/src/lib.rs`) -/

namespace protox_parse

/-- `ParseErrorKind` (payload spans elided where irrelevant). -/
inductive ParseErrorKind where
  | invalidToken | integerOutOfRange | invalidStringCharacters
  | unterminatedString | invalidStringEscape | invalidUtf8String
  | nestedBlockComment | unknownSyntax | invalidIdentifier
  | invalidGroupName | invalidImport | duplicatePackage
  | noSpaceBetweenIntAndIdent | hashCommentOutsideTextFormat
  | floatSuffixOutsideTextFormat | missingColonForScalarTextFormatField
  | unexpectedToken | unexpectedEof | negativeIdentOutsideDefault
  | invalidMessageNumber | invalidEnumNumber | invalidDefault
  | proto3DefaultValue | invalidExtendFieldKind | requiredExtendField
  | mapFieldWithLabel | oneofFieldWithLabel | proto2FieldMissingLabel
  | proto3GroupField | proto3RequiredField | invalidOneofFieldKind
  | invalidMapFieldKeyType | valueInvalidType | integerValueOutOfRange
  | stringValueInvalidUtf8 | emptyOneof | fileTooLarge
deriving Repr, DecidableEq

/-- `ParseError`: first error plus the related rest, with the source text. -/
structure ParseError where
  kind : ParseErrorKind
  related : List ParseErrorKind
  source_code : String
deriving Repr, DecidableEq

/-- `ParseError::new`: `related.remove(0)` panics (`none`) on an empty
list. -/
def ParseError.new (related : List ParseErrorKind) (source : String) :
    Option ParseError :=
  match related with
  | [] => none
  | kind :: related => some { kind, related, source_code := source }

/-- The pipeline after the size check: `parse::parse_file` then
`generate::generate_file`, each error list wrapped by `ParseError::new`.
Both functions live in modules that are not among the sources and are taken
as parameters. -/
def parseInner
    (parse_file : String → Except (List ParseErrorKind) ast.File)
    (generate_file : ast.File → String → Except (List ParseErrorKind) FileDescriptorProto)
    (source : String) : Option (Except ParseError FileDescriptorProto) :=
  match parse_file source with
  | .error errors => (ParseError.new errors source).map Except.error
  | .ok fileAst =>
    match generate_file fileAst source with
    | .error errors => (ParseError.new errors source).map Except.error
    | .ok fd => some (.ok fd)

/-- `protox_parse::parse` (`protox-parse/src/lib.rs` lines 235–243): reject
sources longer than `MAX_FILE_LEN` bytes with `FileTooLarge`, otherwise run
the parsing pipeline. -/
def parse
    (parse_file : String → Except (List ParseErrorKind) ast.File)
    (generate_file : ast.File → String → Except (List ParseErrorKind) FileDescriptorProto)
    (source : String) : Option (Except ParseError FileDescriptorProto) :=
  if source.utf8ByteSize > MAX_FILE_LEN then
    (ParseError.new [.fileTooLarge] source).map Except.error
  else
    parseInner parse_file generate_file source

end protox_parse

/-! ## C7: the file-size bound -/

/-- C7: `parse` fails with `FileTooLarge` exactly on sources longer than
`2^31 - 1` bytes (given that the parser and generator — modelled from the
spec's error contract — never emit that kind themselves); a source at the
bound proceeds to the parsing pipeline unchanged; and the compiler driver
rejects every opened over-long file with `FileTooLarge` before parsing it,
in `add_import` and in `add_file` alike. -/
theorem parse_file_too_large_iff
    (parse_file : String → Except (List protox_parse.ParseErrorKind) ast.File)
    (generate_file : ast.File → String →
      Except (List protox_parse.ParseErrorKind) FileDescriptorProto)
    (hpf : ∀ s errors, parse_file s = .error errors →
      protox_parse.ParseErrorKind.fileTooLarge ∉ errors)
    (hgf : ∀ a s errors, generate_file a s = .error errors →
      protox_parse.ParseErrorKind.fileTooLarge ∉ errors)
    (source : String) :
    ((∃ e, protox_parse.parse parse_file generate_file source =
        some (.error e) ∧
        (e.kind = protox_parse.ParseErrorKind.fileTooLarge ∨
          protox_parse.ParseErrorKind.fileTooLarge ∈ e.related)) ↔
      source.utf8ByteSize > MAX_FILE_LEN) ∧
    (source.utf8ByteSize ≤ MAX_FILE_LEN →
      protox_parse.parse parse_file generate_file source =
        protox_parse.parseInner parse_file generate_file source) ∧
    (∀ (env : compile.Env) (fuel : Nat) (c : compile.Compiler)
        (name : String) (span : Option Span) (stack : List String)
        (file : compile.SrcFile),
      env.openFile name = .ok file →
      file.content.utf8ByteSize > MAX_FILE_LEN →
      stack.any (fun n => n = name) = false →
      c.file_map.containsKey name = false →
      compile.addImport env (fuel + 1) c name span stack =
        .error (.fileTooLarge span)) ∧
    (∀ (env : compile.Env) (fuel : Nat) (c : compile.Compiler)
        (relative_path name : String) (file : compile.SrcFile),
      (env.resolvePath relative_path).orElse
        (fun _ => env.pathToFileName relative_path) = some name →
      c.file_map.lookupIndex name = none →
      env.openFile name = .ok file →
      env.checkShadow file.path relative_path = .ok () →
      file.content.utf8ByteSize > MAX_FILE_LEN →
      compile.addFile env fuel c relative_path =
        some (.error (.fileTooLarge none))) := by
  refine ⟨?_, ?_, ?_, ?_⟩
  · constructor
    · rintro ⟨e, he, hkind⟩
      by_contra hlen
      rw [protox_parse.parse, if_neg hlen] at he
      unfold protox_parse.parseInner at he
      rcases hps : parse_file source with errors | fileAst <;>
        simp only [hps] at he
      · rcases errors with _ | ⟨k, rest⟩
        · simp [protox_parse.ParseError.new] at he
        · simp only [protox_parse.ParseError.new, Option.map_some',
            Option.some.injEq, Except.error.injEq] at he
          have hmem : protox_parse.ParseErrorKind.fileTooLarge ∈ k :: rest := by
            subst he
            rcases hkind with hk | hk
            · exact List.mem_cons.mpr (Or.inl hk.symm)
            · exact List.mem_cons.mpr (Or.inr hk)
          exact hpf source (k :: rest) hps hmem
      · rcases hgs : generate_file fileAst source with errors | fd <;>
          simp only [hgs] at he
        · rcases errors with _ | ⟨k, rest⟩
          · simp [protox_parse.ParseError.new] at he
          · simp only [protox_parse.ParseError.new, Option.map_some',
              Option.some.injEq, Except.error.injEq] at he
            have hmem : protox_parse.ParseErrorKind.fileTooLarge ∈ k :: rest := by
              subst he
              rcases hkind with hk | hk
              · exact List.mem_cons.mpr (Or.inl hk.symm)
              · exact List.mem_cons.mpr (Or.inr hk)
            exact hgf fileAst source (k :: rest) hgs hmem
        · simp at he
    · intro hlen
      refine ⟨{ kind := .fileTooLarge, related := [], source_code := source },
        ?_, Or.inl rfl⟩
      rw [protox_parse.parse, if_pos hlen]
      rfl
  · intro hlen
    rw [protox_parse.parse, if_neg (by omega)]
  · intro env fuel c name span stack file hopen hlen hstack hmap
    unfold compile.addImport
    simp only [hstack, hmap, hopen, hlen, Bool.false_eq_true, if_false,
      if_true]
  · intro env fuel c relative_path name file hres hmap hopen hshadow hlen
    unfold compile.addFile
    simp only [hres, hmap, hopen, hshadow, hlen, if_true]

/-- The empty file descriptor, used by sample environments. -/
def emptyFileDescriptor : FileDescriptorProto :=
  { name := none, package := none, dependency := [], public_dependency := [],
    weak_dependency := [], message_type := [], enum_type := [], service := [],
    extension := [], options := none, source_code_info := none,
    syntax2 := none }

/-- A parser that accepts everything, for witnesses. -/
def trivialParseFile : String → Except (List protox_parse.ParseErrorKind) ast.File :=
  fun _ => .ok sampleFile

/-- A generator that accepts everything, for witnesses. -/
def trivialGenerateFile :
    ast.File → String → Except (List protox_parse.ParseErrorKind) FileDescriptorProto :=
  fun _ _ => .ok emptyFileDescriptor

/-- Witness for C7 with the trivial parser and generator at source `"abc"`. -/
theorem parse_file_too_large_iff_witness :
    ((∃ e, protox_parse.parse trivialParseFile trivialGenerateFile "abc" =
        some (.error e) ∧
        (e.kind = protox_parse.ParseErrorKind.fileTooLarge ∨
          protox_parse.ParseErrorKind.fileTooLarge ∈ e.related)) ↔
      "abc".utf8ByteSize > MAX_FILE_LEN) ∧
    ("abc".utf8ByteSize ≤ MAX_FILE_LEN →
      protox_parse.parse trivialParseFile trivialGenerateFile "abc" =
        protox_parse.parseInner trivialParseFile trivialGenerateFile "abc") ∧
    (∀ (env : compile.Env) (fuel : Nat) (c : compile.Compiler)
        (name : String) (span : Option Span) (stack : List String)
        (file : compile.SrcFile),
      env.openFile name = .ok file →
      file.content.utf8ByteSize > MAX_FILE_LEN →
      stack.any (fun n => n = name) = false →
      c.file_map.containsKey name = false →
      compile.addImport env (fuel + 1) c name span stack =
        .error (.fileTooLarge span)) ∧
    (∀ (env : compile.Env) (fuel : Nat) (c : compile.Compiler)
        (relative_path name : String) (file : compile.SrcFile),
      (env.resolvePath relative_path).orElse
        (fun _ => env.pathToFileName relative_path) = some name →
      c.file_map.lookupIndex name = none →
      env.openFile name = .ok file →
      env.checkShadow file.path relative_path = .ok () →
      file.content.utf8ByteSize > MAX_FILE_LEN →
      compile.addFile env fuel c relative_path =
        some (.error (.fileTooLarge none))) :=
  parse_file_too_large_iff trivialParseFile trivialGenerateFile
    (by intro s errors h; simp [trivialParseFile] at h)
    (by intro a s errors h; simp [trivialGenerateFile] at h)
    "abc"

/-! ## C8: cycle detection in `add_import` -/

/-- Shifting the accumulator out of a string fold. -/
theorem string_foldl_shift (g : String → String) (m : List String) :
    ∀ init : String,
      m.foldl (fun acc s => acc ++ g s) init =
        init ++ m.foldl (fun acc s => acc ++ g s) "" := by
  induction m with
  | nil => intro init; simp [String.append_empty]
  | cons x m ih =>
    intro init
    simp only [List.foldl_cons]
    rw [ih (init ++ g x), ih ("" ++ g x), String.empty_append,
      String.append_assoc]

/-- `String.join` unfolds one element at a time. -/
theorem string_join_cons (x : String) (xs : List String) :
    String.join (x :: xs) = x ++ String.join xs := by
  simp only [String.join, List.foldl_cons, String.empty_append]
  exact string_foldl_shift (fun s => s) xs x

/-- The cycle-string accumulator written as a join of decorated entries. -/
theorem foldl_cycle_eq_join (l : List String) :
    ∀ init : String,
      l.foldl (fun cycle imp => cycle ++ imp ++ " -> ") init =
        init ++ String.join (l.map (fun imp => imp ++ " -> ")) := by
  induction l with
  | nil => intro init; simp [String.join, String.append_empty]
  | cons a t ih =>
    intro init
    simp only [List.foldl_cons, List.map_cons, string_join_cons]
    rw [ih]
    simp [String.append_assoc]

/-- C8: `add_import` on a name already on the per-call import stack fails
with `CircularImport` whose cycle is the stack entries in order, each
followed by `" -> "`, then the repeated name — before any fuel is consumed
(so before the file could be opened) and leaving the caller's state
untouched. -/
theorem add_import_cycle_detected (env : compile.Env) (fuel : Nat)
    (c : compile.Compiler) (file_name : String) (span : Option Span)
    (import_stack : List String)
    (hmem : file_name ∈ import_stack) :
    compile.addImport env fuel c file_name span import_stack =
      .error (.circularImport
        (String.join (import_stack.map (fun imp => imp ++ " -> ")) ++
          file_name)) := by
  have hany : import_stack.any (fun n => n = file_name) = true :=
    List.any_eq_true.mpr ⟨file_name, hmem, by simp⟩
  unfold compile.addImport
  rw [if_pos hany, foldl_cycle_eq_join, String.empty_append]

/-- A sample environment whose resolver knows a single file. -/
def sampleEnv : compile.Env :=
  { resolvePath := fun _ => some "root.proto"
    pathToFileName := fun _ => none
    openFile := fun _ => .error .fileNotFound
    checkShadow := fun _ _ => .ok ()
    parse := fun _ => .error ()
    checkFile := fun _ _ _ _ => .error .checkErrors
    addImportContext := fun e _ => e
    isFileNotFound := fun e => e = .fileNotFound }

/-- A parsed `root.proto` entry, not yet a root. -/
def sampleParsedFile : compile.ParsedFile :=
  { descriptor := { emptyFileDescriptor with name := some "root.proto" },
    name_map := {}, path := some "/inc/root.proto", is_root := false }

/-- A compiler state whose file map holds `root.proto`. -/
def sampleCompiler : compile.Compiler :=
  { file_map := { files := [sampleParsedFile],
                  file_names := [("root.proto", 0)] },
    include_imports := false, include_source_info := false }

/-- Witness for C8: the stack `["a.proto", "b.proto"]` and the repeated name
`"a.proto"`. -/
theorem add_import_cycle_detected_witness :
    compile.addImport sampleEnv 5 sampleCompiler "a.proto" none
        ["a.proto", "b.proto"] =
      .error (.circularImport
        (String.join (["a.proto", "b.proto"].map (fun imp => imp ++ " -> ")) ++
          "a.proto")) :=
  add_import_cycle_detected sampleEnv 5 sampleCompiler "a.proto" none
    ["a.proto", "b.proto"] (by simp)

/-! ## C9: re-adding a known file only marks it as root -/

/-- C9: when `add_file` resolves to a name already in the parsed file map and
the shadowing check passes, the only state change is that the existing
entry's `is_root` flag becomes true: nothing is opened or parsed (the result
does not depend on `openFile`, `parse` or `checkFile`), no entry is added,
and every other field of every entry is unchanged. -/
theorem add_file_existing_marks_root (env : compile.Env) (fuel : Nat)
    (c : compile.Compiler) (relative_path name : String) (i : Nat)
    (pf : compile.ParsedFile)
    (hres : (env.resolvePath relative_path).orElse
      (fun _ => env.pathToFileName relative_path) = some name)
    (hidx : c.file_map.lookupIndex name = some i)
    (hpf : c.file_map.files[i]? = some pf)
    (hshadow : env.checkShadow pf.path relative_path = .ok ()) :
    compile.addFile env fuel c relative_path =
      some (.ok { c with file_map :=
        { files := c.file_map.files.set i { pf with is_root := true },
          file_names := c.file_map.file_names } }) ∧
    (c.file_map.files.set i { pf with is_root := true }).length =
      c.file_map.files.length ∧
    (∀ j : Nat, j ≠ i →
      (c.file_map.files.set i { pf with is_root := true })[j]? =
        c.file_map.files[j]?) ∧
    (c.file_map.files.set i { pf with is_root := true })[i]? =
      some { pf with is_root := true } := by
  refine ⟨?_, by simp, fun j hj => List.getElem?_set_ne (by omega), ?_⟩
  · unfold compile.addFile
    simp only [hres, hidx, hpf, hshadow]
  · have : i < c.file_map.files.length := by
      by_contra hi
      rw [List.getElem?_eq_none (by omega)] at hpf
      exact Option.noConfusion hpf
    rw [List.getElem?_set_self]
    exact this

/-- Witness for C9: re-adding `root.proto` to `sampleCompiler`. -/
theorem add_file_existing_marks_root_witness :
    compile.addFile sampleEnv 0 sampleCompiler "root.proto" =
      some (.ok { sampleCompiler with file_map :=
        { files := sampleCompiler.file_map.files.set 0
            { sampleParsedFile with is_root := true },
          file_names := sampleCompiler.file_map.file_names } }) ∧
    (sampleCompiler.file_map.files.set 0
      { sampleParsedFile with is_root := true }).length =
      sampleCompiler.file_map.files.length ∧
    (∀ j : Nat, j ≠ 0 →
      (sampleCompiler.file_map.files.set 0
        { sampleParsedFile with is_root := true })[j]? =
        sampleCompiler.file_map.files[j]?) ∧
    (sampleCompiler.file_map.files.set 0
      { sampleParsedFile with is_root := true })[0]? =
      some { sampleParsedFile with is_root := true } :=
  add_file_existing_marks_root sampleEnv 0 sampleCompiler "root.proto"
    "root.proto" 0 sampleParsedFile rfl rfl rfl rfl

/-! ## The source-code-info builder (`src/check/span.rs`)

The builder works over the checker IR (`ir` module, a later snapshot than
`check/mod.rs`); the IR and the AST pieces it walks are reconstructed from
their uses in `span.rs` and from the spec's data model.  `LineResolver`
(the `lines` module, not among the sources) only converts a byte span to the
protobuf `[line, col, end_line, end_col]` form; it is carried as an opaque
resolver function in the context. -/

namespace sci

/-- `ast::FieldKind` (span.rs era).  The group body is never visited by the
builder (`Group { ty_span, .. }`) and is omitted here. -/
inductive FieldKind where
  | normal (ty : Ty) (ty_span : Span)
  | group (ty_span : Span)
  | map (key_ty value_ty : Ty) (ty_span : Span)
deriving Repr, DecidableEq

/-- `ast::Field` (span.rs era): label carries its span; the default value
(`Field::default_value()` in the source, looked up among the options) is
carried directly. -/
structure Field where
  name : Ident
  number : IntLit
  label : Option (FieldLabel × Span)
  kind : FieldKind
  default_value : Option OptionBody
  options : Option OptionList
  span : Span
  comments : Comments
deriving Repr, DecidableEq

/-- `ast::Extend` (span.rs era). -/
structure Extend where
  extendee : TyName
  fields : List Field
  span : Span
  comments : Comments
deriving Repr, DecidableEq

/-- `ast::Oneof` (span.rs era). -/
structure Oneof where
  name : Ident
  fields : List Field
  options : List OptionNode
  span : Span
  comments : Comments
deriving Repr, DecidableEq

/-- `ast::MessageBody` (span.rs era): the parts the builder visits. -/
structure MessageBody where
  extendBlocks : List Extend
  enums : List Enum
  oneofs : List Oneof
  extensions : List Extensions
  options : List OptionNode
  reserved : List Reserved
deriving Repr, DecidableEq

/-- `MessageBody::reserved_ranges()`: the reserved statements that declare
ranges, each with its ranges. -/
def MessageBody.reserved_ranges (b : MessageBody) :
    List (Reserved × List ReservedRange) :=
  b.reserved.filterMap (fun r =>
    match r.kind with
    | .ranges rs => some (r, rs)
    | _ => none)

/-- `MessageBody::reserved_names()`: the reserved statements that declare
names, each with its names. -/
def MessageBody.reserved_names (b : MessageBody) :
    List (Reserved × List Ident) :=
  b.reserved.filterMap (fun r =>
    match r.kind with
    | .names ns => some (r, ns)
    | _ => none)

/-- `ast::Message` (span.rs era). -/
structure Message where
  name : Ident
  body : MessageBody
  span : Span
  comments : Comments
deriving Repr, DecidableEq

/-- `ast::File` (span.rs era). -/
structure File where
  package : Option Package
  imports : List Import
  enums : List Enum
  services : List Service
  extendBlocks : List Extend
  options : List OptionNode
  syntax_span : Option (Span × Comments)
  span : Span
deriving Repr, DecidableEq

/-- `ast::File::public_imports`: the imports declared public, enumerated by
their position in the import list. -/
def File.public_imports (f : File) : List (Nat × Import) :=
  f.imports.enum.filter (fun q => q.2.kind = some ImportKind.public)

/-- `ast::File::weak_imports`. -/
def File.weak_imports (f : File) : List (Nat × Import) :=
  f.imports.enum.filter (fun q => q.2.kind = some ImportKind.weak)

end sci

namespace ir

/-- `ir::MessageSource`: where an IR message came from — a message
declaration, a group field, or a synthetic map entry. -/
inductive MessageSource where
  | message (m : sci.Message)
  | group (field : sci.Field) (body : sci.MessageBody)
  | map (field : sci.Field)
deriving Repr, DecidableEq

/-- `ir::FieldSource`: a declared field, or the key/value field of a
synthetic map entry (payloads unused by the builder). -/
inductive FieldSource where
  | field (f : sci.Field)
  | mapKey (span : Span)
  | mapValue (span : Span)
deriving Repr, DecidableEq

/-- `ir::Field`. -/
structure Field where
  ast : FieldSource
deriving Repr, DecidableEq

/-- `ir::OneofSource`: a declared oneof or a synthetic proto3-optional
oneof. -/
inductive OneofSource where
  | oneof (o : sci.Oneof)
  | synthetic
deriving Repr, DecidableEq

/-- `ir::Oneof`. -/
structure Oneof where
  ast : OneofSource
deriving Repr, DecidableEq

/-- `ir::Message`: the source it came from plus its lowered fields, oneofs
and nested messages. -/
inductive Message where
  | mk (ast : MessageSource) (fields : List Field) (oneofs : List Oneof)
      (messages : List Message)

/-- The message's source. -/
def Message.ast : Message → MessageSource
  | .mk a _ _ _ => a

/-- The message's fields. -/
def Message.fields : Message → List Field
  | .mk _ f _ _ => f

/-- The message's oneofs. -/
def Message.oneofs : Message → List Oneof
  | .mk _ _ o _ => o

/-- The message's nested messages. -/
def Message.messages : Message → List Message
  | .mk _ _ _ m => m

/-- `ir::File`. -/
structure File where
  ast : sci.File
  messages : List Message

end ir

namespace sci

/-- `source_code_info::Location`: the resolved span is the protobuf
`[line, col, end_line, end_col]` (or 3-element) form produced by the line
resolver. -/
structure Location where
  path : List Int
  span : List Int
  leading_comments : Option String
  trailing_comments : Option String
  leading_detached_comments : List String
deriving Repr, DecidableEq

/-- `check::span::Context`: the mutable path stack and location list, plus
the line resolver (modelled as an opaque span-resolving function). -/
structure Context where
  path : List Int
  locations : List Location
  lines : Span → List Int

/-- `Context::add_location`. -/
def add_location (span : Span) (ctx : Context) : Context :=
  { ctx with locations := ctx.locations ++
      [{ path := ctx.path, span := ctx.lines span, leading_comments := none,
         trailing_comments := none, leading_detached_comments := [] }] }

/-- `Context::add_location_with_comments`. -/
def add_location_with_comments (span : Span) (comments : Comments)
    (ctx : Context) : Context :=
  { ctx with locations := ctx.locations ++
      [{ path := ctx.path, span := ctx.lines span,
         leading_comments := comments.leading_comment,
         trailing_comments := comments.trailing_comment,
         leading_detached_comments := comments.leading_detached_comments }] }

/-- `Context::with_path_item`: push the item, run the callback, pop. -/
def with_path_item (path_item : Int) (f : Context → Context) (ctx : Context) :
    Context :=
  let ctx := { ctx with path := ctx.path ++ [path_item] }
  let ctx := f ctx
  { ctx with path := ctx.path.dropLast }

/-- `Context::add_location_for`. -/
def add_location_for (path_item : Int) (span : Span) (ctx : Context) :
    Context :=
  with_path_item path_item (add_location span) ctx

/-- The enumerated loop inside `Context::with_path_items`: push the index,
visit the item, pop. -/
def with_path_items_loop {α : Type} (f : Context → α → Context) :
    List α → Nat → Context → Context
  | [], _, ctx => ctx
  | a :: rest, index, ctx =>
      let ctx := { ctx with path := ctx.path ++ [Int.ofNat index] }
      let ctx := f ctx a
      let ctx := { ctx with path := ctx.path.dropLast }
      with_path_items_loop f rest (index + 1) ctx

/-- `Context::with_path_items`: push the tag, visit each item under its
index, pop. -/
def with_path_items {α : Type} (path_item : Int) (items : List α)
    (f : Context → α → Context) (ctx : Context) : Context :=
  let ctx := { ctx with path := ctx.path ++ [path_item] }
  let ctx := with_path_items_loop f items 0 ctx
  { ctx with path := ctx.path.dropLast }

end sci

/-- `ast::Enum::reserved_ranges()` (as used by `visit_enum`). -/
def Enum.reserved_ranges (e : Enum) : List (Reserved × List ReservedRange) :=
  e.reserved.filterMap (fun r =>
    match r.kind with
    | .ranges rs => some (r, rs)
    | _ => none)

/-- `ast::Enum::reserved_names()`. -/
def Enum.reserved_names (e : Enum) : List (Reserved × List Ident) :=
  e.reserved.filterMap (fun r =>
    match r.kind with
    | .names ns => some (r, ns)
    | _ => none)

namespace sci

/-- `Context::visit_options`: each `option …;` statement adds its own
location and one under the (stubbed, `// TODO`) field number `0`. -/
def visit_options : List OptionNode → Context → Context
  | [], ctx => ctx
  | option :: rest, ctx =>
      let ctx := add_location option.span ctx
      let ctx := add_location_for 0 option.span ctx
      visit_options rest ctx

/-- The loop of `Context::visit_options_list`. -/
def visit_options_list_loop : List OptionBody → Context → Context
  | [], ctx => ctx
  | option :: rest, ctx =>
      visit_options_list_loop rest (add_location_for 0 option.span ctx)

/-- `Context::visit_options_list`. -/
def visit_options_list (options : OptionList) (ctx : Context) : Context :=
  let ctx := add_location options.span ctx
  visit_options_list_loop options.options ctx

/-- `Context::visit_field` (`src/check/span.rs` lines 157–203). -/
def visit_field (field : Field) (ctx : Context) : Context :=
  let ctx := add_location_with_comments field.span field.comments ctx
  let ctx := add_location_for 1 field.name.span ctx
  let ctx := add_location_for 3 field.number.span ctx
  let ctx :=
    match field.label with
    | some (_, label_span) => with_path_item 4 (add_location label_span) ctx
    | none => ctx
  let ctx :=
    match field.kind with
    | .normal (Ty.named nm) _ => add_location_for 6 nm.span ctx
    | .normal _ ty_span => add_location_for 5 ty_span ctx
    | .group ty_span =>
        add_location_for 6 field.name.span (add_location_for 5 ty_span ctx)
    | .map _ _ ty_span => add_location_for 6 ty_span ctx
  let ctx :=
    match field.default_value with
    | some default_value => add_location_for 7 default_value.value.span ctx
    | none => ctx
  match field.options with
  | some options => with_path_item 8 (visit_options_list options) ctx
  | none => ctx

/-- The inner range loop of `Context::visit_extensions`; `count` is the
running flattened index across a group of `extensions` statements. -/
def visit_extension_ranges (options : Option OptionList) :
    List ReservedRange → Nat → Context → Context
  | [], _, ctx => ctx
  | range :: rest, count, ctx =>
      let ctx := with_path_item (Int.ofNat count) (fun c =>
        let c := add_location range.span c
        let c := add_location_for 1 range.start_span c
        let c := add_location_for 2 range.end_span c
        match options with
        | some opts => with_path_item 3 (visit_options_list opts) c
        | none => c) ctx
      visit_extension_ranges options rest (count + 1) ctx

/-- `Context::visit_extensions` (`src/check/span.rs` lines 205–228). -/
def visit_extensions : List Extensions → Nat → Context → Context
  | [], _, ctx => ctx
  | extension :: rest, count, ctx =>
      let ctx := add_location_with_comments extension.span extension.comments ctx
      let ctx := visit_extension_ranges extension.options extension.ranges count ctx
      visit_extensions rest (count + extension.ranges.length) ctx

/-- `Context::visit_oneof`: only source-declared oneofs add locations. -/
def visit_oneof (oneof : ir.Oneof) (ctx : Context) : Context :=
  match oneof.ast with
  | .oneof o =>
      let ctx := add_location o.span ctx
      let ctx := add_location_for 1 o.name.span ctx
      with_path_item 2 (visit_options o.options) ctx
  | .synthetic => ctx

/-- `Context::visit_enum_value`. -/
def visit_enum_value (value : EnumValue) (ctx : Context) : Context :=
  let ctx := add_location_with_comments value.span value.comments ctx
  let ctx := add_location_for 1 value.name.span ctx
  let ctx := add_location_for 2 value.number.span ctx
  match value.options with
  | some options => with_path_item 3 (visit_options_list options) ctx
  | none => ctx

/-- The inner range loop of `Context::visit_reserved_ranges`. -/
def visit_reserved_ranges_inner :
    List ReservedRange → Nat → Context → Context
  | [], _, ctx => ctx
  | range :: rest, count, ctx =>
      let ctx := with_path_item (Int.ofNat count) (fun c =>
        let c := add_location range.span c
        let c := add_location_for 1 range.start_span c
        add_location_for 2 range.end_span c) ctx
      visit_reserved_ranges_inner rest (count + 1) ctx

/-- `Context::visit_reserved_ranges` (`src/check/span.rs` lines 281–301). -/
def visit_reserved_ranges :
    List (Reserved × List ReservedRange) → Nat → Context → Context
  | [], _, ctx => ctx
  | (reserved, ranges) :: rest, count, ctx =>
      let ctx := add_location_with_comments reserved.span reserved.comments ctx
      let ctx := visit_reserved_ranges_inner ranges count ctx
      visit_reserved_ranges rest (count + ranges.length) ctx

/-- The inner name loop of `Context::visit_reserved_names`. -/
def visit_reserved_names_inner : List Ident → Nat → Context → Context
  | [], _, ctx => ctx
  | name :: rest, count, ctx =>
      visit_reserved_names_inner rest (count + 1)
        (add_location_for (Int.ofNat count) name.span ctx)

/-- `Context::visit_reserved_names` (`src/check/span.rs` lines 303–316). -/
def visit_reserved_names :
    List (Reserved × List Ident) → Nat → Context → Context
  | [], _, ctx => ctx
  | (reserved, names) :: rest, count, ctx =>
      let ctx := add_location_with_comments reserved.span reserved.comments ctx
      let ctx := visit_reserved_names_inner names count ctx
      visit_reserved_names rest (count + names.length) ctx

/-- `Context::visit_enum` (`src/check/span.rs` lines 243–264). -/
def visit_enum (enu : Enum) (ctx : Context) : Context :=
  let ctx := add_location_with_comments enu.span enu.comments ctx
  let ctx := add_location_for 1 enu.name.span ctx
  let ctx := with_path_items 2 enu.values (fun c v => visit_enum_value v c) ctx
  let ctx := with_path_item 3 (visit_options enu.options) ctx
  let ctx := with_path_item 4
    (fun c => visit_reserved_ranges enu.reserved_ranges 0 c) ctx
  with_path_item 5 (fun c => visit_reserved_names enu.reserved_names 0 c) ctx

/-- `Context::visit_method` (`src/check/span.rs` lines 333–354). -/
def visit_method (method : Method) (ctx : Context) : Context :=
  let ctx := add_location_with_comments method.span method.comments ctx
  let ctx := add_location_for 1 method.name.span ctx
  let ctx := add_location_for 2 method.input_ty.span ctx
  let ctx := add_location_for 3 method.output_ty.span ctx
  let ctx :=
    match method.client_streaming with
    | some span => add_location_for 5 span ctx
    | none => ctx
  let ctx :=
    match method.server_streaming with
    | some span => add_location_for 6 span ctx
    | none => ctx
  with_path_item 4 (visit_options method.options) ctx

/-- `Context::visit_service` (`src/check/span.rs` lines 318–331). -/
def visit_service (service : Service) (ctx : Context) : Context :=
  let ctx := add_location_with_comments service.span service.comments ctx
  let ctx := add_location_for 1 service.name.span ctx
  let ctx := with_path_items 2 service.methods (fun c m => visit_method m c) ctx
  with_path_item 3 (visit_options service.options) ctx

/-- The inner field loop of `Context::visit_extends`; `count` is the running
flattened field index across a group of `extend` blocks. -/
def visit_extends_fields (extendee_span : Span) :
    List Field → Nat → Context → Context
  | [], _, ctx => ctx
  | field :: rest, count, ctx =>
      let ctx := with_path_item (Int.ofNat count) (fun c =>
        let c := visit_field field c
        add_location_for 2 extendee_span c) ctx
      visit_extends_fields extendee_span rest (count + 1) ctx

/-- `Context::visit_extends` (`src/check/span.rs` lines 356–371). -/
def visit_extends : List Extend → Nat → Context → Context
  | [], _, ctx => ctx
  | ex :: rest, count, ctx =>
      let ctx := add_location_with_comments ex.span ex.comments ctx
      let ctx := visit_extends_fields ex.extendee.span ex.fields count ctx
      visit_extends rest (count + ex.fields.length) ctx

mutual
/-- `Context::visit_message` (`src/check/span.rs` lines 98–155): synthetic
map entries emit nothing; messages and groups emit their own location and
name, then fields (2), extends (6), oneofs (8), nested types (3), enums (4),
options (7), extension ranges (5), reserved ranges (9) and names (10). -/
def visit_message (message : ir.Message) (ctx : Context) : Context :=
  match message with
  | .mk mAst mFields mOneofs mMessages =>
    match mAst with
    | .map _ => ctx
    | .message msg =>
        let ctx := add_location_with_comments msg.span msg.comments ctx
        let ctx := add_location_for 1 msg.name.span ctx
        visit_message_common msg.body mFields mOneofs mMessages ctx
    | .group field body =>
        let ctx := add_location_with_comments field.span field.comments ctx
        let ctx := add_location_for 1 field.name.span ctx
        visit_message_common body mFields mOneofs mMessages ctx
termination_by (sizeOf message, 2)

/-- The shared tail of `visit_message` after the header. -/
def visit_message_common (body : MessageBody) (mFields : List ir.Field)
    (mOneofs : List ir.Oneof) (mMessages : List ir.Message) (ctx : Context) :
    Context :=
  let ctx := with_path_items 2 mFields (fun c f =>
    match f.ast with
    | .field field => visit_field field c
    | .mapKey _ => c
    | .mapValue _ => c) ctx
  let ctx := with_path_item 6 (visit_extends body.extendBlocks 0) ctx
  let ctx := with_path_items 8 mOneofs (fun c o => visit_oneof o c) ctx
  let ctx := { ctx with path := ctx.path ++ [(3 : Int)] }
  let ctx := visit_message_list mMessages 0 ctx
  let ctx := { ctx with path := ctx.path.dropLast }
  let ctx := with_path_items 4 body.enums (fun c e => visit_enum e c) ctx
  let ctx := with_path_item 7 (visit_options body.options) ctx
  let ctx := with_path_item 5 (fun c => visit_extensions body.extensions 0 c) ctx
  let ctx := with_path_item 9
    (fun c => visit_reserved_ranges body.reserved_ranges 0 c) ctx
  with_path_item 10 (fun c => visit_reserved_names body.reserved_names 0 c) ctx
termination_by (sizeOf mMessages, 1)

/-- The nested-type loop of `visit_message`: `with_path_items` specialised
to the recursive call (`with_path_items(NESTED_TYPE, message.messages, …)`
in the source). -/
def visit_message_list (ms : List ir.Message) (index : Nat) (ctx : Context) :
    Context :=
  match ms with
  | [] => ctx
  | m :: rest =>
      let ctx := { ctx with path := ctx.path ++ [Int.ofNat index] }
      let ctx := visit_message m ctx
      let ctx := { ctx with path := ctx.path.dropLast }
      visit_message_list rest (index + 1) ctx
termination_by (sizeOf ms, 0)
end

/-- The `if let Some(package)` step of `visit_file`. -/
def visit_file_package (file : ir.File) (ctx : Context) : Context :=
  match file.ast.package with
  | some package =>
      with_path_item 2
        (add_location_with_comments package.span package.comments) ctx
  | none => ctx

/-- The `if let Some((syntax_span, syntax_comments))` step of
`visit_file`. -/
def visit_file_syntax_decl (file : ir.File) (ctx : Context) : Context :=
  match file.ast.syntax_span with
  | some q => with_path_item 12 (add_location_with_comments q.1 q.2) ctx
  | none => ctx

/-- `ir::File::get_source_code_info` body: `Context::visit_file`
(`src/check/span.rs` lines 33–96). -/
def visit_file (file : ir.File) (ctx : Context) : Context :=
  let ctx := add_location file.ast.span ctx
  let ctx := visit_file_package file ctx
  let ctx := with_path_items 3 file.ast.imports
    (fun c imp => add_location_with_comments imp.span imp.comments c) ctx
  let ctx := with_path_items 10 file.ast.public_imports
    (fun c q => add_location q.2.span c) ctx
  let ctx := with_path_items 11 file.ast.weak_imports
    (fun c q => add_location q.2.span c) ctx
  let ctx := with_path_items 4 file.messages
    (fun c m => visit_message m c) ctx
  let ctx := with_path_items 5 file.ast.enums (fun c e => visit_enum e c) ctx
  let ctx := with_path_items 6 file.ast.services
    (fun c s => visit_service s c) ctx
  let ctx := with_path_item 7 (visit_extends file.ast.extendBlocks 0) ctx
  let ctx := with_path_item 8 (visit_options file.ast.options) ctx
  visit_file_syntax_decl file ctx

/-- `ir::File::get_source_code_info`: run the visitor from the empty path
with the file's line resolver. -/
def get_source_code_info (lines : Span → List Int) (file : ir.File) :
    List Location :=
  (visit_file file { path := [], locations := [], lines }).locations

end sci

namespace sci

/-- The locations a visitor emits when started at path `p` with an empty
location buffer. -/
def runLocs (f : Context → Context) (p : List Int) (lines : Span → List Int) :
    List Location :=
  (f { path := p, locations := [], lines := lines }).locations

/-- A well-behaved visitor step: it restores the path stack, keeps the
resolver, appends its emitted locations (which depend only on the entry
path) to the buffer, and tags every emitted location with a path extending
the entry path. -/
def Emits (f : Context → Context) : Prop :=
  (∀ p locs lines, f { path := p, locations := locs, lines := lines } =
      { path := p, locations := locs ++ runLocs f p lines, lines := lines }) ∧
  (∀ p lines loc, loc ∈ runLocs f p lines → p <+: loc.path)

/-- The identity visitor emits nothing. -/
theorem emits_id : Emits (fun ctx => ctx) := by
  refine ⟨fun p locs lines => by simp [runLocs], fun p lines loc h => ?_⟩
  simp [runLocs] at h

/-- Sequencing well-behaved steps emits the concatenation. -/
theorem runLocs_seq {f g : Context → Context} (hf : Emits f) (hg : Emits g)
    (p : List Int) (lines : Span → List Int) :
    runLocs (fun ctx => g (f ctx)) p lines =
      runLocs f p lines ++ runLocs g p lines := by
  show (g (f { path := p, locations := [], lines := lines })).locations = _
  rw [hf.1, hg.1]
  show ([] ++ runLocs f p lines) ++ runLocs g p lines = _
  simp

/-- Sequencing preserves well-behavedness. -/
theorem emits_seq {f g : Context → Context} (hf : Emits f) (hg : Emits g) :
    Emits (fun ctx => g (f ctx)) := by
  constructor
  · intro p locs lines
    show g (f { path := p, locations := locs, lines := lines }) = _
    rw [hf.1, hg.1, runLocs_seq hf hg]
    simp
  · intro p lines loc h
    rw [runLocs_seq hf hg] at h
    rcases List.mem_append.mp h with h | h
    · exact hf.2 _ _ _ h
    · exact hg.2 _ _ _ h

/-- `add_location` emits one location at the current path. -/
theorem runLocs_add_location (span : Span) (p : List Int)
    (lines : Span → List Int) :
    runLocs (add_location span) p lines =
      [{ path := p, span := lines span, leading_comments := none,
         trailing_comments := none, leading_detached_comments := [] }] := rfl

/-- `add_location` is well behaved. -/
theorem emits_add_location (span : Span) : Emits (add_location span) := by
  constructor
  · intro p locs lines; rfl
  · intro p lines loc h
    rw [runLocs_add_location] at h
    simp only [List.mem_singleton] at h
    subst h
    exact List.prefix_refl p

/-- `add_location_with_comments` emits one location at the current path. -/
theorem runLocs_add_location_with_comments (span : Span) (comments : Comments)
    (p : List Int) (lines : Span → List Int) :
    runLocs (add_location_with_comments span comments) p lines =
      [{ path := p, span := lines span,
         leading_comments := comments.leading_comment,
         trailing_comments := comments.trailing_comment,
         leading_detached_comments := comments.leading_detached_comments }] := rfl

/-- `add_location_with_comments` is well behaved. -/
theorem emits_add_location_with_comments (span : Span) (comments : Comments) :
    Emits (add_location_with_comments span comments) := by
  constructor
  · intro p locs lines; rfl
  · intro p lines loc h
    rw [runLocs_add_location_with_comments] at h
    simp only [List.mem_singleton] at h
    subst h
    exact List.prefix_refl p

/-- `with_path_item` runs its callback at the extended path. -/
theorem runLocs_with_path_item {f : Context → Context} (hf : Emits f)
    (i : Int) (p : List Int) (lines : Span → List Int) :
    runLocs (with_path_item i f) p lines = runLocs f (p ++ [i]) lines := by
  show (with_path_item i f { path := p, locations := [], lines := lines }).locations = _
  unfold with_path_item
  dsimp only
  rw [hf.1]
  simp

/-- `with_path_item` restores the path (the pop undoes the push because the
callback restores the stack) and is well behaved. -/
theorem emits_with_path_item {f : Context → Context} (hf : Emits f) (i : Int) :
    Emits (with_path_item i f) := by
  constructor
  · intro p locs lines
    rw [runLocs_with_path_item hf]
    show { f { path := p ++ [i], locations := locs, lines := lines } with
        path := (f { path := p ++ [i], locations := locs, lines := lines }).path.dropLast } = _
    rw [hf.1]
    simp
  · intro p lines loc h
    rw [runLocs_with_path_item hf] at h
    exact List.IsPrefix.trans (List.prefix_append p [i]) (hf.2 _ _ _ h)

/-- `add_location_for` emits one location at the extended path. -/
theorem runLocs_add_location_for (i : Int) (span : Span) (p : List Int)
    (lines : Span → List Int) :
    runLocs (add_location_for i span) p lines =
      [{ path := p ++ [i], span := lines span, leading_comments := none,
         trailing_comments := none, leading_detached_comments := [] }] := by
  unfold add_location_for
  rw [runLocs_with_path_item (emits_add_location span), runLocs_add_location]

/-- `add_location_for` is well behaved. -/
theorem emits_add_location_for (i : Int) (span : Span) :
    Emits (add_location_for i span) :=
  emits_with_path_item (emits_add_location span) i

/-- `with_path_items_loop` as one step plus the rest, for rewriting. -/
theorem with_path_items_loop_cons {α : Type} (f : Context → α → Context)
    (a : α) (rest : List α) (index : Nat) :
    with_path_items_loop f (a :: rest) index = fun ctx =>
      with_path_items_loop f rest (index + 1)
        (with_path_item (Int.ofNat index) (fun c => f c a) ctx) := rfl

/-- The `with_path_items` loop is well behaved when each item's visit is. -/
theorem emits_with_path_items_loop {α : Type} {f : Context → α → Context}
    (hf : ∀ a, Emits (fun c => f c a)) :
    ∀ (l : List α) (index : Nat), Emits (with_path_items_loop f l index) := by
  intro l
  induction l with
  | nil =>
    intro index
    refine ⟨fun p locs lines => by simp [runLocs, with_path_items_loop],
      fun p lines loc h => ?_⟩
    simp [runLocs, with_path_items_loop] at h
  | cons a rest ih =>
    intro index
    rw [with_path_items_loop_cons]
    exact @emits_seq (with_path_item (Int.ofNat index) (fun c => f c a))
      (with_path_items_loop f rest (index + 1))
      (emits_with_path_item (hf a) (Int.ofNat index)) (ih (index + 1))

/-- The locations emitted by the `with_path_items` loop: each item under its
index. -/
theorem runLocs_with_path_items_loop {α : Type} {f : Context → α → Context}
    (hf : ∀ a, Emits (fun c => f c a)) :
    ∀ (l : List α) (index : Nat) (p : List Int) (lines : Span → List Int),
    runLocs (with_path_items_loop f l index) p lines =
      ((List.enumFrom index l).map (fun q =>
        runLocs (fun c => f c q.2) (p ++ [Int.ofNat q.1]) lines)).flatten := by
  intro l
  induction l with
  | nil => intro index p lines; rfl
  | cons a rest ih =>
    intro index p lines
    rw [with_path_items_loop_cons]
    rw [@runLocs_seq (with_path_item (Int.ofNat index) (fun c => f c a))
      (with_path_items_loop f rest (index + 1))
      (emits_with_path_item (hf a) (Int.ofNat index))
      (emits_with_path_items_loop hf rest (index + 1)) p lines]
    rw [runLocs_with_path_item (hf a), ih]
    simp [List.enumFrom]

/-- `with_path_items` is well behaved when each item's visit is. -/
theorem emits_with_path_items {α : Type} {f : Context → α → Context}
    (hf : ∀ a, Emits (fun c => f c a)) (tag : Int) (items : List α) :
    Emits (with_path_items tag items f) :=
  emits_with_path_item (emits_with_path_items_loop hf items 0) tag

/-- The locations emitted by `with_path_items`: the `j`-th item's visit runs
at `path ++ [tag, j]`. -/
theorem runLocs_with_path_items {α : Type} {f : Context → α → Context}
    (hf : ∀ a, Emits (fun c => f c a)) (tag : Int) (items : List α)
    (p : List Int) (lines : Span → List Int) :
    runLocs (with_path_items tag items f) p lines =
      (items.enum.map (fun q =>
        runLocs (fun c => f c q.2) (p ++ [tag, Int.ofNat q.1]) lines)).flatten := by
  have h1 : runLocs (with_path_items tag items f) p lines =
      runLocs (with_path_item tag (with_path_items_loop f items 0)) p lines := rfl
  rw [h1, runLocs_with_path_item (emits_with_path_items_loop hf items 0),
    runLocs_with_path_items_loop hf]
  simp [List.enum]

end sci

namespace sci

/-- Transfer well-behavedness along a pointwise (definitional) equality. -/
theorem emits_congr {f g : Context → Context} (hg : Emits g)
    (h : ∀ c, f c = g c) : Emits f := by
  have heq : f = g := funext h
  rw [heq]
  exact hg

/-- `visit_options` is well behaved. -/
theorem emits_visit_options : ∀ l : List OptionNode, Emits (visit_options l) := by
  intro l
  induction l with
  | nil =>
    refine ⟨fun p locs lines => by simp [runLocs, visit_options],
      fun p lines loc h => ?_⟩
    simp [runLocs, visit_options] at h
  | cons option rest ih =>
    have hstep : visit_options (option :: rest) = fun ctx =>
        visit_options rest
          (add_location_for 0 option.span (add_location option.span ctx)) := rfl
    rw [hstep]
    exact emits_seq (emits_seq (emits_add_location option.span)
      (emits_add_location_for 0 option.span)) ih

/-- The `visit_options_list` loop is well behaved. -/
theorem emits_visit_options_list_loop :
    ∀ l : List OptionBody, Emits (visit_options_list_loop l) := by
  intro l
  induction l with
  | nil =>
    refine ⟨fun p locs lines => by simp [runLocs, visit_options_list_loop],
      fun p lines loc h => ?_⟩
    simp [runLocs, visit_options_list_loop] at h
  | cons option rest ih =>
    have hstep : visit_options_list_loop (option :: rest) = fun ctx =>
        visit_options_list_loop rest (add_location_for 0 option.span ctx) := rfl
    rw [hstep]
    exact emits_seq (emits_add_location_for 0 option.span) ih

/-- `visit_options_list` is well behaved. -/
theorem emits_visit_options_list (options : OptionList) :
    Emits (visit_options_list options) := by
  have hstep : visit_options_list options = fun ctx =>
      visit_options_list_loop options.options
        (add_location options.span ctx) := rfl
  rw [hstep]
  exact emits_seq (emits_add_location options.span)
    (emits_visit_options_list_loop options.options)

/-- `visit_field` is well behaved. -/
theorem emits_visit_field (field : Field) : Emits (visit_field field) := by
  have h4 : Emits (fun ctx =>
      match field.label with
      | some (_, label_span) => with_path_item 4 (add_location label_span) ctx
      | none => ctx) := by
    rcases field.label with _ | ⟨l, label_span⟩
    · exact emits_id
    · exact emits_with_path_item (emits_add_location label_span) 4
  have h5 : Emits (fun ctx =>
      match field.kind with
      | .normal (Ty.named nm) _ => add_location_for 6 nm.span ctx
      | .normal _ ty_span => add_location_for 5 ty_span ctx
      | .group ty_span =>
          add_location_for 6 field.name.span (add_location_for 5 ty_span ctx)
      | .map _ _ ty_span => add_location_for 6 ty_span ctx) := by
    rcases field.kind with ⟨ty, ty_span⟩ | ty_span | ⟨kt, vt, ty_span⟩
    · cases ty <;>
        first
        | exact emits_add_location_for 6 _
        | exact emits_add_location_for 5 ty_span
    · exact emits_seq (emits_add_location_for 5 ty_span)
        (emits_add_location_for 6 field.name.span)
    · exact emits_add_location_for 6 ty_span
  have h6 : Emits (fun ctx =>
      match field.default_value with
      | some default_value => add_location_for 7 default_value.value.span ctx
      | none => ctx) := by
    rcases field.default_value with _ | dv
    · exact emits_id
    · exact emits_add_location_for 7 dv.value.span
  have h7 : Emits (fun ctx =>
      match field.options with
      | some options => with_path_item 8 (visit_options_list options) ctx
      | none => ctx) := by
    rcases field.options with _ | options
    · exact emits_id
    · exact emits_with_path_item (emits_visit_options_list options) 8
  exact emits_congr
    (emits_seq (emits_seq (emits_seq (emits_seq (emits_seq (emits_seq
      (emits_add_location_with_comments field.span field.comments)
      (emits_add_location_for 1 field.name.span))
      (emits_add_location_for 3 field.number.span)) h4) h5) h6) h7)
    (fun c => rfl)

end sci

namespace sci

/-- A visitor that does nothing is well behaved. -/
theorem emits_of_eq_id {f : Context → Context} (h : ∀ c, f c = c) : Emits f :=
  emits_congr emits_id h

/-- The range loop of `visit_extensions` is well behaved for any running
counter. -/
theorem emits_visit_extension_ranges (options : Option OptionList) :
    ∀ (l : List ReservedRange) (count : Nat),
      Emits (visit_extension_ranges options l count) := by
  intro l
  induction l with
  | nil => intro count; exact emits_of_eq_id (fun c => rfl)
  | cons range rest ih =>
    intro count
    rcases options with _ | opts
    · exact emits_congr
        (emits_seq
          (emits_with_path_item
            (emits_congr
              (emits_seq (emits_seq (emits_add_location range.span)
                (emits_add_location_for 1 range.start_span))
                (emits_add_location_for 2 range.end_span))
              (fun c => rfl))
            (Int.ofNat count))
          (ih (count + 1)))
        (fun c => rfl)
    · exact emits_congr
        (emits_seq
          (emits_with_path_item
            (emits_congr
              (emits_seq (emits_seq (emits_seq (emits_add_location range.span)
                (emits_add_location_for 1 range.start_span))
                (emits_add_location_for 2 range.end_span))
                (emits_with_path_item (emits_visit_options_list opts) 3))
              (fun c => rfl))
            (Int.ofNat count))
          (ih (count + 1)))
        (fun c => rfl)

/-- `visit_extensions` is well behaved for any running counter. -/
theorem emits_visit_extensions :
    ∀ (l : List Extensions) (count : Nat), Emits (visit_extensions l count) := by
  intro l
  induction l with
  | nil => intro count; exact emits_of_eq_id (fun c => rfl)
  | cons extension rest ih =>
    intro count
    exact emits_congr
      (emits_seq (emits_seq
        (emits_add_location_with_comments extension.span extension.comments)
        (emits_visit_extension_ranges extension.options extension.ranges count))
        (ih (count + extension.ranges.length)))
      (fun c => rfl)

/-- `visit_oneof` is well behaved. -/
theorem emits_visit_oneof (oneof : ir.Oneof) : Emits (visit_oneof oneof) := by
  obtain ⟨ast⟩ := oneof
  rcases ast with o | _
  · exact emits_congr
      (emits_seq (emits_seq (emits_add_location o.span)
        (emits_add_location_for 1 o.name.span))
        (emits_with_path_item (emits_visit_options o.options) 2))
      (fun c => rfl)
  · exact emits_of_eq_id (fun c => rfl)

/-- `visit_enum_value` is well behaved. -/
theorem emits_visit_enum_value (value : EnumValue) :
    Emits (visit_enum_value value) := by
  have hopts : Emits (fun ctx =>
      match value.options with
      | some options => with_path_item 3 (visit_options_list options) ctx
      | none => ctx) := by
    rcases value.options with _ | options
    · exact emits_id
    · exact emits_with_path_item (emits_visit_options_list options) 3
  exact emits_congr
    (emits_seq (emits_seq (emits_seq
      (emits_add_location_with_comments value.span value.comments)
      (emits_add_location_for 1 value.name.span))
      (emits_add_location_for 2 value.number.span)) hopts)
    (fun c => rfl)

/-- The range loop of `visit_reserved_ranges` is well behaved. -/
theorem emits_visit_reserved_ranges_inner :
    ∀ (l : List ReservedRange) (count : Nat),
      Emits (visit_reserved_ranges_inner l count) := by
  intro l
  induction l with
  | nil => intro count; exact emits_of_eq_id (fun c => rfl)
  | cons range rest ih =>
    intro count
    exact emits_congr
      (emits_seq
        (emits_with_path_item
          (emits_congr
            (emits_seq (emits_seq (emits_add_location range.span)
              (emits_add_location_for 1 range.start_span))
              (emits_add_location_for 2 range.end_span))
            (fun c => rfl))
          (Int.ofNat count))
        (ih (count + 1)))
      (fun c => rfl)

/-- `visit_reserved_ranges` is well behaved. -/
theorem emits_visit_reserved_ranges :
    ∀ (l : List (Reserved × List ReservedRange)) (count : Nat),
      Emits (visit_reserved_ranges l count) := by
  intro l
  induction l with
  | nil => intro count; exact emits_of_eq_id (fun c => rfl)
  | cons pair rest ih =>
    intro count
    obtain ⟨reserved, ranges⟩ := pair
    exact emits_congr
      (emits_seq (emits_seq
        (emits_add_location_with_comments reserved.span reserved.comments)
        (emits_visit_reserved_ranges_inner ranges count))
        (ih (count + ranges.length)))
      (fun c => rfl)

/-- The name loop of `visit_reserved_names` is well behaved. -/
theorem emits_visit_reserved_names_inner :
    ∀ (l : List Ident) (count : Nat),
      Emits (visit_reserved_names_inner l count) := by
  intro l
  induction l with
  | nil => intro count; exact emits_of_eq_id (fun c => rfl)
  | cons name rest ih =>
    intro count
    exact emits_congr
      (emits_seq (emits_add_location_for (Int.ofNat count) name.span)
        (ih (count + 1)))
      (fun c => rfl)

/-- `visit_reserved_names` is well behaved. -/
theorem emits_visit_reserved_names :
    ∀ (l : List (Reserved × List Ident)) (count : Nat),
      Emits (visit_reserved_names l count) := by
  intro l
  induction l with
  | nil => intro count; exact emits_of_eq_id (fun c => rfl)
  | cons pair rest ih =>
    intro count
    obtain ⟨reserved, names⟩ := pair
    exact emits_congr
      (emits_seq (emits_seq
        (emits_add_location_with_comments reserved.span reserved.comments)
        (emits_visit_reserved_names_inner names count))
        (ih (count + names.length)))
      (fun c => rfl)

/-- `visit_enum` is well behaved. -/
theorem emits_visit_enum (enu : Enum) : Emits (visit_enum enu) :=
  emits_congr
    (emits_seq (emits_seq (emits_seq (emits_seq (emits_seq
      (emits_add_location_with_comments enu.span enu.comments)
      (emits_add_location_for 1 enu.name.span))
      (emits_with_path_items (fun v => emits_visit_enum_value v) 2 enu.values))
      (emits_with_path_item (emits_visit_options enu.options) 3))
      (emits_with_path_item
        (emits_visit_reserved_ranges enu.reserved_ranges 0) 4))
      (emits_with_path_item (emits_visit_reserved_names enu.reserved_names 0) 5))
    (fun c => rfl)

/-- `visit_method` is well behaved. -/
theorem emits_visit_method (method : Method) : Emits (visit_method method) := by
  have hcs : Emits (fun ctx =>
      match method.client_streaming with
      | some span => add_location_for 5 span ctx
      | none => ctx) := by
    rcases method.client_streaming with _ | span
    · exact emits_id
    · exact emits_add_location_for 5 span
  have hss : Emits (fun ctx =>
      match method.server_streaming with
      | some span => add_location_for 6 span ctx
      | none => ctx) := by
    rcases method.server_streaming with _ | span
    · exact emits_id
    · exact emits_add_location_for 6 span
  exact emits_congr
    (emits_seq (emits_seq (emits_seq (emits_seq (emits_seq (emits_seq
      (emits_add_location_with_comments method.span method.comments)
      (emits_add_location_for 1 method.name.span))
      (emits_add_location_for 2 method.input_ty.span))
      (emits_add_location_for 3 method.output_ty.span)) hcs) hss)
      (emits_with_path_item (emits_visit_options method.options) 4))
    (fun c => rfl)

/-- `visit_service` is well behaved. -/
theorem emits_visit_service (service : Service) :
    Emits (visit_service service) :=
  emits_congr
    (emits_seq (emits_seq (emits_seq
      (emits_add_location_with_comments service.span service.comments)
      (emits_add_location_for 1 service.name.span))
      (emits_with_path_items (fun m => emits_visit_method m) 2 service.methods))
      (emits_with_path_item (emits_visit_options service.options) 3))
    (fun c => rfl)

/-- The field loop of `visit_extends` is well behaved. -/
theorem emits_visit_extends_fields (extendee_span : Span) :
    ∀ (l : List Field) (count : Nat),
      Emits (visit_extends_fields extendee_span l count) := by
  intro l
  induction l with
  | nil => intro count; exact emits_of_eq_id (fun c => rfl)
  | cons field rest ih =>
    intro count
    exact emits_congr
      (emits_seq
        (emits_with_path_item
          (emits_congr
            (emits_seq (emits_visit_field field)
              (emits_add_location_for 2 extendee_span))
            (fun c => rfl))
          (Int.ofNat count))
        (ih (count + 1)))
      (fun c => rfl)

/-- `visit_extends` is well behaved. -/
theorem emits_visit_extends :
    ∀ (l : List Extend) (count : Nat), Emits (visit_extends l count) := by
  intro l
  induction l with
  | nil => intro count; exact emits_of_eq_id (fun c => rfl)
  | cons ex rest ih =>
    intro count
    exact emits_congr
      (emits_seq (emits_seq
        (emits_add_location_with_comments ex.span ex.comments)
        (emits_visit_extends_fields ex.extendee.span ex.fields count))
        (ih (count + ex.fields.length)))
      (fun c => rfl)

end sci

namespace sci

/-- The per-field visit used in the FIELD phase of `visit_message` is well
behaved. -/
theorem emits_message_field_item (f : ir.Field) :
    Emits (fun c =>
      match f.ast with
      | .field field => visit_field field c
      | .mapKey _ => c
      | .mapValue _ => c) := by
  obtain ⟨ast⟩ := f
  rcases ast with field | sp | sp
  · exact emits_congr (emits_visit_field field) (fun c => rfl)
  · exact emits_of_eq_id (fun c => rfl)
  · exact emits_of_eq_id (fun c => rfl)

mutual
/-- `visit_message` is well behaved: it restores the path stack and appends
locations under the entry path. -/
theorem emits_visit_message (message : ir.Message) :
    Emits (visit_message message) := by
  obtain ⟨mAst, mFields, mOneofs, mMessages⟩ := message
  rcases mAst with msg | ⟨field, body⟩ | f
  · exact emits_congr
      (emits_seq (emits_seq
        (emits_add_location_with_comments msg.span msg.comments)
        (emits_add_location_for 1 msg.name.span))
        (emits_visit_message_common msg.body mFields mOneofs mMessages))
      (fun c => by simp only [visit_message]; try rfl)
  · exact emits_congr
      (emits_seq (emits_seq
        (emits_add_location_with_comments field.span field.comments)
        (emits_add_location_for 1 field.name.span))
        (emits_visit_message_common body mFields mOneofs mMessages))
      (fun c => by simp only [visit_message]; try rfl)
  · exact emits_of_eq_id (fun c => by simp only [visit_message]; try rfl)
termination_by (sizeOf message, 2)

/-- The common tail of `visit_message` is well behaved. -/
theorem emits_visit_message_common (body : MessageBody)
    (mFields : List ir.Field) (mOneofs : List ir.Oneof)
    (mMessages : List ir.Message) :
    Emits (visit_message_common body mFields mOneofs mMessages) := by
  exact emits_congr
    (emits_seq (emits_seq (emits_seq (emits_seq (emits_seq (emits_seq
      (emits_seq (emits_seq
        (emits_with_path_items emits_message_field_item 2 mFields)
        (emits_with_path_item (emits_visit_extends body.extendBlocks 0) 6))
        (emits_with_path_items (fun o => emits_visit_oneof o) 8 mOneofs))
        (emits_with_path_item (emits_visit_message_list mMessages 0) 3))
        (emits_with_path_items (fun e => emits_visit_enum e) 4 body.enums))
        (emits_with_path_item (emits_visit_options body.options) 7))
        (emits_with_path_item (emits_visit_extensions body.extensions 0) 5))
        (emits_with_path_item
          (emits_visit_reserved_ranges body.reserved_ranges 0) 9))
        (emits_with_path_item
          (emits_visit_reserved_names body.reserved_names 0) 10))
    (fun c => by simp only [visit_message_common]; try rfl)
termination_by (sizeOf mMessages, 1)

/-- The nested-type loop of `visit_message` is well behaved. -/
theorem emits_visit_message_list (ms : List ir.Message) (index : Nat) :
    Emits (visit_message_list ms index) := by
  match ms with
  | [] => exact emits_of_eq_id (fun c => by simp only [visit_message_list]; try rfl)
  | m :: rest =>
    exact emits_congr
      (emits_seq (emits_with_path_item (emits_visit_message m)
        (Int.ofNat index))
        (emits_visit_message_list rest (index + 1)))
      (fun c => by simp only [visit_message_list]; try rfl)
termination_by (sizeOf ms, 0)
end

end sci

namespace sci

/-- A location without comments, as pushed by `add_location`. -/
def locAt (p : List Int) (lines : Span → List Int) (span : Span) : Location :=
  { path := p, span := lines span, leading_comments := none,
    trailing_comments := none, leading_detached_comments := [] }

/-- A location with comments, as pushed by `add_location_with_comments`. -/
def locAtC (p : List Int) (lines : Span → List Int) (span : Span)
    (comments : Comments) : Location :=
  { path := p, span := lines span,
    leading_comments := comments.leading_comment,
    trailing_comments := comments.trailing_comment,
    leading_detached_comments := comments.leading_detached_comments }

/-- `runLocs` of `add_location`, in `locAt` form. -/
theorem runLocs_add_location_eq (span : Span) (p : List Int)
    (lines : Span → List Int) :
    runLocs (add_location span) p lines = [locAt p lines span] := rfl

/-- `runLocs` of `add_location_with_comments`, in `locAtC` form. -/
theorem runLocs_add_location_with_comments_eq (span : Span)
    (comments : Comments) (p : List Int) (lines : Span → List Int) :
    runLocs (add_location_with_comments span comments) p lines =
      [locAtC p lines span comments] := rfl

/-- Sequential composition of a list of visitor steps, innermost first. -/
def compseq : List (Context → Context) → Context → Context
  | [], ctx => ctx
  | f :: rest, ctx => compseq rest (f ctx)

/-- A composition of well-behaved steps is well behaved. -/
theorem emits_compseq :
    ∀ l : List (Context → Context), (∀ f ∈ l, Emits f) → Emits (compseq l) := by
  intro l
  induction l with
  | nil => intro h; exact emits_of_eq_id (fun c => rfl)
  | cons f rest ih =>
    intro h
    exact emits_congr
      (emits_seq (h f (by simp)) (ih (fun g hg => h g (by simp [hg]))))
      (fun c => rfl)

/-- A composition of well-behaved steps emits the concatenation of what the
steps emit. -/
theorem runLocs_compseq :
    ∀ l : List (Context → Context), (∀ f ∈ l, Emits f) →
      ∀ (p : List Int) (lines : Span → List Int),
      runLocs (compseq l) p lines =
        (l.map (fun f => runLocs f p lines)).flatten := by
  intro l
  induction l with
  | nil => intro h p lines; rfl
  | cons f rest ih =>
    intro h p lines
    have hf := h f (by simp)
    have hrest := emits_compseq rest (fun g hg => h g (by simp [hg]))
    have hstep : compseq (f :: rest) = fun ctx => compseq rest (f ctx) := rfl
    rw [hstep, @runLocs_seq f (compseq rest) hf hrest p lines,
      ih (fun g hg => h g (by simp [hg])) p lines]
    simp

/-- The package step is well behaved. -/
theorem emits_visit_file_package (file : ir.File) :
    Emits (visit_file_package file) := by
  cases hp : file.ast.package with
  | none =>
    refine emits_of_eq_id (fun c => ?_)
    unfold visit_file_package
    rw [hp]
  | some package =>
    refine emits_congr (emits_with_path_item
      (emits_add_location_with_comments package.span package.comments) 2)
      (fun c => ?_)
    unfold visit_file_package
    rw [hp]

/-- The locations emitted by the package step. -/
theorem runLocs_visit_file_package (file : ir.File)
    (lines : Span → List Int) :
    runLocs (visit_file_package file) [] lines =
      (match file.ast.package with
       | some package => [locAtC [2] lines package.span package.comments]
       | none => []) := by
  cases hp : file.ast.package with
  | none =>
    have : visit_file_package file = fun ctx => ctx := by
      funext c; unfold visit_file_package; rw [hp]
    rw [this]
    rfl
  | some package =>
    have : visit_file_package file = with_path_item 2
        (add_location_with_comments package.span package.comments) := by
      funext c; unfold visit_file_package; rw [hp]
    rw [this, runLocs_with_path_item
      (emits_add_location_with_comments package.span package.comments) 2,
      runLocs_add_location_with_comments_eq]
    rfl

/-- The syntax step is well behaved. -/
theorem emits_visit_file_syntax_decl (file : ir.File) :
    Emits (visit_file_syntax_decl file) := by
  cases hp : file.ast.syntax_span with
  | none =>
    refine emits_of_eq_id (fun c => ?_)
    unfold visit_file_syntax_decl
    rw [hp]
  | some q =>
    refine emits_congr (emits_with_path_item
      (emits_add_location_with_comments q.1 q.2) 12) (fun c => ?_)
    unfold visit_file_syntax_decl
    rw [hp]

/-- The locations emitted by the syntax step. -/
theorem runLocs_visit_file_syntax_decl (file : ir.File)
    (lines : Span → List Int) :
    runLocs (visit_file_syntax_decl file) [] lines =
      (match file.ast.syntax_span with
       | some q => [locAtC [12] lines q.1 q.2]
       | none => []) := by
  cases hp : file.ast.syntax_span with
  | none =>
    have : visit_file_syntax_decl file = fun ctx => ctx := by
      funext c; unfold visit_file_syntax_decl; rw [hp]
    rw [this]
    rfl
  | some q =>
    have : visit_file_syntax_decl file = with_path_item 12
        (add_location_with_comments q.1 q.2) := by
      funext c; unfold visit_file_syntax_decl; rw [hp]
    rw [this, runLocs_with_path_item
      (emits_add_location_with_comments q.1 q.2) 12,
      runLocs_add_location_with_comments_eq]
    rfl

/-- `visit_file` is well behaved. -/
theorem emits_visit_file (file : ir.File) : Emits (visit_file file) := by
  refine emits_congr (emits_compseq
    [ add_location file.ast.span,
      visit_file_package file,
      with_path_items 3 file.ast.imports
        (fun c (imp : Import) =>
          add_location_with_comments imp.span imp.comments c),
      with_path_items 10 file.ast.public_imports
        (fun c (q : Nat × Import) => add_location q.2.span c),
      with_path_items 11 file.ast.weak_imports
        (fun c (q : Nat × Import) => add_location q.2.span c),
      with_path_items 4 file.messages
        (fun c (m : ir.Message) => visit_message m c),
      with_path_items 5 file.ast.enums (fun c (e : Enum) => visit_enum e c),
      with_path_items 6 file.ast.services
        (fun c (s : Service) => visit_service s c),
      with_path_item 7 (visit_extends file.ast.extendBlocks 0),
      with_path_item 8 (visit_options file.ast.options),
      visit_file_syntax_decl file ] ?_) (fun c => rfl)
  intro f hf
  simp only [List.mem_cons, List.not_mem_nil, or_false] at hf
  rcases hf with rfl | rfl | rfl | rfl | rfl | rfl | rfl | rfl | rfl | rfl | rfl
  · exact emits_add_location file.ast.span
  · exact emits_visit_file_package file
  · exact emits_with_path_items
      (fun (imp : Import) =>
        emits_add_location_with_comments imp.span imp.comments) 3 _
  · exact emits_with_path_items
      (fun (q : Nat × Import) => emits_add_location q.2.span) 10 _
  · exact emits_with_path_items
      (fun (q : Nat × Import) => emits_add_location q.2.span) 11 _
  · exact emits_with_path_items
      (fun (m : ir.Message) => emits_visit_message m) 4 _
  · exact emits_with_path_items (fun (e : Enum) => emits_visit_enum e) 5 _
  · exact emits_with_path_items
      (fun (s : Service) => emits_visit_service s) 6 _
  · exact emits_with_path_item (emits_visit_extends file.ast.extendBlocks 0) 7
  · exact emits_with_path_item (emits_visit_options file.ast.options) 8
  · exact emits_visit_file_syntax_decl file

end sci

/-! ## C6: location paths emitted for a file -/

open sci in
/-- C6: the builder emits the file's own location at the empty path, the
package under `[2]`, the `i`-th import under `[3, i]`, the `i`-th public and
weak import under `[10, i]` and `[11, i]`, the `i`-th top-level message,
enum and service subtree under the prefixes `[4, i]`, `[5, i]` and `[6, i]`,
extensions under tag `7`, file options under tag `8`, and the syntax clause
under `[12]` — in that order; and in general `with_path_items` visits the
`j`-th element of a repeated field at the current path extended by the
field's tag and the zero-based index `j`. -/
theorem visit_file_location_paths (file : ir.File)
    (lines : Span → List Int) :
    ((visit_file file
        { path := [], locations := [], lines := lines }).locations =
      [locAt [] lines file.ast.span]
      ++ (match file.ast.package with
          | some package =>
              [locAtC [2] lines package.span package.comments]
          | none => [])
      ++ (file.ast.imports.enum.map (fun q =>
            [locAtC [3, Int.ofNat q.1] lines q.2.span q.2.comments])).flatten
      ++ (file.ast.public_imports.enum.map (fun q =>
            [locAt [10, Int.ofNat q.1] lines q.2.2.span])).flatten
      ++ (file.ast.weak_imports.enum.map (fun q =>
            [locAt [11, Int.ofNat q.1] lines q.2.2.span])).flatten
      ++ (file.messages.enum.map (fun q =>
            runLocs (visit_message q.2) [4, Int.ofNat q.1] lines)).flatten
      ++ (file.ast.enums.enum.map (fun q =>
            runLocs (visit_enum q.2) [5, Int.ofNat q.1] lines)).flatten
      ++ (file.ast.services.enum.map (fun q =>
            runLocs (visit_service q.2) [6, Int.ofNat q.1] lines)).flatten
      ++ runLocs (visit_extends file.ast.extendBlocks 0) [7] lines
      ++ runLocs (visit_options file.ast.options) [8] lines
      ++ (match file.ast.syntax_span with
          | some q => [locAtC [12] lines q.1 q.2]
          | none => [])) ∧
    (∀ (α : Type) (tag : Int) (items : List α)
       (f : Context → α → Context) (p : List Int),
      (∀ a, Emits (fun c => f c a)) →
      runLocs (with_path_items tag items f) p lines =
        (items.enum.map (fun q =>
          runLocs (fun c => f c q.2) (p ++ [tag, Int.ofNat q.1]) lines)).flatten) := by
  constructor
  · have hphases : ∀ f2 ∈ [ add_location file.ast.span,
        visit_file_package file,
        with_path_items 3 file.ast.imports
          (fun c (imp : Import) =>
            add_location_with_comments imp.span imp.comments c),
        with_path_items 10 file.ast.public_imports
          (fun c (q : Nat × Import) => add_location q.2.span c),
        with_path_items 11 file.ast.weak_imports
          (fun c (q : Nat × Import) => add_location q.2.span c),
        with_path_items 4 file.messages
          (fun c (m : ir.Message) => visit_message m c),
        with_path_items 5 file.ast.enums (fun c (e : Enum) => visit_enum e c),
        with_path_items 6 file.ast.services
          (fun c (s : Service) => visit_service s c),
        with_path_item 7 (visit_extends file.ast.extendBlocks 0),
        with_path_item 8 (visit_options file.ast.options),
        visit_file_syntax_decl file ], Emits f2 := by
      intro f2 hf2
      simp only [List.mem_cons, List.not_mem_nil, or_false] at hf2
      rcases hf2 with rfl | rfl | rfl | rfl | rfl | rfl | rfl | rfl | rfl | rfl | rfl
      · exact emits_add_location file.ast.span
      · exact emits_visit_file_package file
      · exact emits_with_path_items
          (fun (imp : Import) =>
            emits_add_location_with_comments imp.span imp.comments) 3 _
      · exact emits_with_path_items
          (fun (q : Nat × Import) => emits_add_location q.2.span) 10 _
      · exact emits_with_path_items
          (fun (q : Nat × Import) => emits_add_location q.2.span) 11 _
      · exact emits_with_path_items
          (fun (m : ir.Message) => emits_visit_message m) 4 _
      · exact emits_with_path_items (fun (e : Enum) => emits_visit_enum e) 5 _
      · exact emits_with_path_items
          (fun (s : Service) => emits_visit_service s) 6 _
      · exact emits_with_path_item
          (emits_visit_extends file.ast.extendBlocks 0) 7
      · exact emits_with_path_item (emits_visit_options file.ast.options) 8
      · exact emits_visit_file_syntax_decl file
    have hchain : visit_file file = compseq [ add_location file.ast.span,
        visit_file_package file,
        with_path_items 3 file.ast.imports
          (fun c (imp : Import) =>
            add_location_with_comments imp.span imp.comments c),
        with_path_items 10 file.ast.public_imports
          (fun c (q : Nat × Import) => add_location q.2.span c),
        with_path_items 11 file.ast.weak_imports
          (fun c (q : Nat × Import) => add_location q.2.span c),
        with_path_items 4 file.messages
          (fun c (m : ir.Message) => visit_message m c),
        with_path_items 5 file.ast.enums (fun c (e : Enum) => visit_enum e c),
        with_path_items 6 file.ast.services
          (fun c (s : Service) => visit_service s c),
        with_path_item 7 (visit_extends file.ast.extendBlocks 0),
        with_path_item 8 (visit_options file.ast.options),
        visit_file_syntax_decl file ] := funext (fun c => rfl)
    show runLocs (visit_file file) [] lines = _
    rw [hchain, runLocs_compseq _ hphases [] lines]
    simp only [List.map_cons, List.map_nil, List.flatten_cons,
      List.flatten_nil, List.append_nil]
    rw [runLocs_add_location_eq, runLocs_visit_file_package,
      runLocs_visit_file_syntax_decl,
      runLocs_with_path_items
        (fun (imp : Import) =>
          emits_add_location_with_comments imp.span imp.comments)
        3 file.ast.imports [] lines,
      runLocs_with_path_items
        (fun (q : Nat × Import) => emits_add_location q.2.span)
        10 file.ast.public_imports [] lines,
      runLocs_with_path_items
        (fun (q : Nat × Import) => emits_add_location q.2.span)
        11 file.ast.weak_imports [] lines,
      runLocs_with_path_items
        (fun (m : ir.Message) => emits_visit_message m) 4 file.messages [] lines,
      runLocs_with_path_items
        (fun (e : Enum) => emits_visit_enum e) 5 file.ast.enums [] lines,
      runLocs_with_path_items
        (fun (s : Service) => emits_visit_service s) 6 file.ast.services [] lines,
      runLocs_with_path_item (emits_visit_extends file.ast.extendBlocks 0) 7 [] lines,
      runLocs_with_path_item (emits_visit_options file.ast.options) 8 [] lines]
    simp only [runLocs_add_location_with_comments_eq, runLocs_add_location_eq,
      List.nil_append, List.append_assoc]
  · intro α tag items f p hf
    exact runLocs_with_path_items hf tag items p lines

/-! ## C10: the path stack discipline -/

/-- The `with_path_items` loop restores the path stack when each item's
visit does. -/
theorem with_path_items_loop_path {α : Type} (f : sci.Context → α → sci.Context)
    (h : ∀ c a, (f c a).path = c.path) :
    ∀ (l : List α) (index : Nat) (ctx : sci.Context),
      (sci.with_path_items_loop f l index ctx).path = ctx.path := by
  intro l
  induction l with
  | nil => intro index ctx; rfl
  | cons a rest ih =>
    intro index ctx
    show (sci.with_path_items_loop f rest (index + 1)
      { f { ctx with path := ctx.path ++ [Int.ofNat index] } a with
        path := (f { ctx with path := ctx.path ++ [Int.ofNat index] } a).path.dropLast }).path = ctx.path
    rw [ih]
    show (f { ctx with path := ctx.path ++ [Int.ofNat index] } a).path.dropLast = ctx.path
    rw [h]
    show (ctx.path ++ [Int.ofNat index]).dropLast = ctx.path
    simp

open sci in
/-- C10: `with_path_item` and `with_path_items` restore the path stack
exactly (given callbacks that do the same, as every visitor here does);
every location present after visiting a message subtree either was already
there or carries the entry path as a prefix of its recorded path; and the
path stack is empty again when `visit_file` completes from the initial
context. -/
theorem path_stack_discipline :
    (∀ (i : Int) (f : Context → Context) (ctx : Context),
      (∀ c, (f c).path = c.path) →
      (with_path_item i f ctx).path = ctx.path) ∧
    (∀ (α : Type) (tag : Int) (items : List α)
       (f : Context → α → Context) (ctx : Context),
      (∀ c a, (f c a).path = c.path) →
      (with_path_items tag items f ctx).path = ctx.path) ∧
    (∀ (m : ir.Message) (ctx : Context) (loc : Location),
      loc ∈ (visit_message m ctx).locations →
      loc ∈ ctx.locations ∨ ctx.path <+: loc.path) ∧
    (∀ (file : ir.File) (lines : Span → List Int),
      (visit_file file { path := [], locations := [], lines := lines }).path = []) := by
  refine ⟨?_, ?_, ?_, ?_⟩
  · intro i f ctx h
    show (f { ctx with path := ctx.path ++ [i] }).path.dropLast = ctx.path
    rw [h]
    show (ctx.path ++ [i]).dropLast = ctx.path
    simp
  · intro α tag items f ctx h
    show (with_path_items_loop f items 0
      { ctx with path := ctx.path ++ [tag] }).path.dropLast = ctx.path
    rw [with_path_items_loop_path f h]
    show (ctx.path ++ [tag]).dropLast = ctx.path
    simp
  · intro m ctx loc hmem
    obtain ⟨p, locs, lines⟩ := ctx
    rw [(emits_visit_message m).1 p locs lines] at hmem
    rcases List.mem_append.mp hmem with h | h
    · exact Or.inl h
    · exact Or.inr ((emits_visit_message m).2 p lines loc h)
  · intro file lines
    rw [(emits_visit_file file).1 [] [] lines]

/-! ## Sample data for the span-builder witnesses -/

/-- A resolver that maps every span to the empty location span. -/
def lines0 : Span → List Int := fun _ => []

/-- A sample location. -/
def sampleLoc : sci.Location :=
  { path := [1], span := [], leading_comments := none,
    trailing_comments := none, leading_detached_comments := [] }

/-- A sample context with a nonempty path and one recorded location. -/
def sampleContext : sci.Context :=
  { path := [9], locations := [sampleLoc], lines := lines0 }

/-- A sample span-era field (used as a synthetic map-entry source). -/
def sampleSciField : sci.Field :=
  { name := { value := "x", span := span0 },
    number := { negative := false, value := 5, span := span0 },
    label := none, kind := sci.FieldKind.normal Ty.int32 span0,
    default_value := none, options := none, span := span0,
    comments := comments0 }

/-- An IR message standing for a synthetic map entry: visiting it emits
nothing. -/
def sampleMapMessage : ir.Message :=
  .mk (ir.MessageSource.map sampleSciField) [] [] []

/-- A sample file AST with a package, one plain import and a syntax span. -/
def sampleSciFile : sci.File :=
  { package := some { name := "pkg", span := span0, comments := comments0 },
    imports := [{ kind := none, value := { value := "a.proto", span := span0 },
                  span := span0, comments := comments0 }],
    enums := [], services := [], extendBlocks := [], options := [],
    syntax_span := some (span0, comments0), span := span0 }

/-- The IR file over `sampleSciFile` with no messages. -/
def sampleIrFile : ir.File :=
  { ast := sampleSciFile, messages := [] }

/-- Witness for C10 at concrete inputs. -/
theorem path_stack_discipline_witness :
    (sci.with_path_item 2 (fun c => c) sampleContext).path =
      sampleContext.path ∧
    (sci.with_path_items 4 [7, 8]
      (fun c (_ : Nat) => c) sampleContext).path = sampleContext.path ∧
    (sampleLoc ∈ sampleContext.locations ∨
      sampleContext.path <+: sampleLoc.path) ∧
    (sci.visit_file sampleIrFile
      { path := [], locations := [], lines := lines0 }).path = [] :=
  ⟨path_stack_discipline.1 2 (fun c => c) sampleContext (fun c => rfl),
   path_stack_discipline.2.1 Nat 4 [7, 8] (fun c _ => c) sampleContext
     (fun c a => rfl),
   path_stack_discipline.2.2.1 sampleMapMessage sampleContext sampleLoc
     (by simp [sci.visit_message, sampleMapMessage, sampleContext]),
   path_stack_discipline.2.2.2 sampleIrFile lines0⟩

/-- Witness for C6 on `sampleIrFile`. -/
theorem visit_file_location_paths_witness :
    ((sci.visit_file sampleIrFile
        { path := [], locations := [], lines := lines0 }).locations =
      [sci.locAt [] lines0 span0,
       sci.locAtC [2] lines0 span0 comments0,
       sci.locAtC [3, 0] lines0 span0 comments0,
       sci.locAtC [12] lines0 span0 comments0]) ∧
    (sci.runLocs (sci.with_path_items 4 ([] : List Nat) (fun c _ => c))
        [] lines0 = []) := by
  constructor
  · have h := (visit_file_location_paths sampleIrFile lines0).1
    simpa [sampleIrFile, sampleSciFile, sci.File.public_imports,
      sci.File.weak_imports, sci.visit_extends, sci.visit_options,
      sci.runLocs, List.enum, List.enumFrom] using h
  · have h := (visit_file_location_paths sampleIrFile lines0).2 Nat 4 []
      (fun c _ => c) [] (fun a => sci.emits_id)
    simpa using h
